import Mathlib

/-!
Verification of the plot-data transformation and layout-reconciliation engine
of the OpenChemFacts frontend.

Part A embeds `src/lib/ec10eq-plot-utils.ts` (the Series Builder):
the EC10eq dataset model, the flat-to-nested normalisation
(`convertToDetailed`), and `createEC10eqPlotFromData`.

Part B embeds the layout merges of `src/components/BenchmarkComparison.tsx`
(`enhancedLayout`, `secondaryAxes`) and `src/components/PlotViewer.tsx`
(`enhancedLayout`) over a JSON-value model with JavaScript object
semantics (ordered fields, spread, property update), plus the
`isEC10eqData` format detector.

Modelling conventions:
- JavaScript numbers are modelled as exact fractions (`Q`, an Int
  numerator with a Nat denominator); all numeric source values in scope
  are exact small decimals, and the code performs only comparisons,
  floor/ceil of log10, and powers of ten on them.
- JavaScript strings are Lean `String`s; the default `Array.sort()`
  comparator (string comparison) is modelled by `strLe`, code-point
  lexicographic order on the underlying character list.
- JavaScript objects are ordered association lists with unique keys;
  property update keeps the original position, new keys append at the
  end, and spread copies fields in order.
-/

/-! ### Generic list and string machinery -/

/-- Code-point lexicographic order on character lists, the order used by
the JavaScript string comparison underlying the default `Array.sort()`. -/
def lexLe : List Char → List Char → Bool
  | [], _ => true
  | _ :: _, [] => false
  | a :: as, b :: bs => if a = b then lexLe as bs else decide (a < b)

/-- String comparison used by JavaScript `Array.prototype.sort()`. -/
def strLe (a b : String) : Bool := lexLe a.data b.data

/-- The propositional form of `strLe`, used as the sorting relation. -/
def strLeProp (a b : String) : Prop := strLe a b = true

instance : DecidableRel strLeProp := fun a b => inferInstanceAs (Decidable (strLe a b = true))

/-- `Object.keys(o).sort()` and species-name sorting from the source:
sort a list of strings ascending by string comparison. -/
def sortStrings (l : List String) : List String := List.insertionSort strLeProp l

/-- JavaScript default sort on numbers compares their decimal string
forms; this is the relation used for `uniqueYears.sort()`. -/
def numStrLeProp (a b : Nat) : Prop := strLe (Nat.repr a) (Nat.repr b) = true

instance : DecidableRel numStrLeProp :=
  fun a b => inferInstanceAs (Decidable (strLe (Nat.repr a) (Nat.repr b) = true))

/-- `uniqueYears.sort()` from the source (default comparator). -/
def sortNumsJs (l : List Nat) : List Nat := List.insertionSort numStrLeProp l

/-- `[...new Set(l)]`: deduplicate keeping first-occurrence order. -/
def jsUnique {α : Type} [DecidableEq α] (l : List α) : List α :=
  l.foldl (fun acc x => if x ∈ acc then acc else acc ++ [x]) []

/-- First-match association lookup: JavaScript object property read. -/
def lookupA {κ β : Type} [DecidableEq κ] : List (κ × β) → κ → Option β
  | [], _ => none
  | (k, v) :: rest, key => if k = key then some v else lookupA rest key

/-- JavaScript object property write: update the first matching key in
place, or append a new key at the end. -/
def setA {κ β : Type} [DecidableEq κ] : List (κ × β) → κ → β → List (κ × β)
  | [], key, v => [(key, v)]
  | (k, w) :: rest, key, v =>
      if k = key then (k, v) :: rest else (k, w) :: setA rest key v

/-- `x || d` on a string-or-undefined `x` (falsy empty string falls back). -/
def jsOrDefault (o : Option String) (d : String) : String :=
  match o with
  | some s => if s = "" then d else s
  | none => d

/-- Position of the first occurrence of an element in a list. -/
def posOf {α : Type} [DecidableEq α] : List α → α → Nat
  | [], _ => 0
  | x :: xs, a => if x = a then 0 else posOf xs a + 1

/-- `s.toLowerCase()` (per-character lowering). -/
def jsToLower (s : String) : String := String.mk (s.data.map Char.toLower)

/-- `s.charAt(0).toUpperCase() + s.slice(1)` from the source. -/
def capitalizeJs (s : String) : String :=
  match s.data with
  | [] => ""
  | c :: rest => String.mk (c.toUpper :: rest)

/-! ### Exact numbers -/

/-- An exact (not necessarily reduced) fraction, modelling the JavaScript
numbers that flow through the Series Builder. -/
structure Q where
  num : Int
  den : Nat
deriving DecidableEq, Repr

/-- Numeric less-or-equal by cross multiplication. -/
def Q.ble (a b : Q) : Bool := decide (a.num * (b.den : Int) ≤ b.num * (a.den : Int))

/-- The rational value of a `Q`. -/
def Q.toRat (a : Q) : ℚ := (a.num : ℚ) / (a.den : ℚ)

/-- `Math.min(a, b)`. -/
def qmin2 (a b : Q) : Q := if Q.ble a b then a else b

/-- `Math.max(a, b)`. -/
def qmax2 (a b : Q) : Q := if Q.ble a b then b else a

/-- Minimum of a nonempty value list (`Math.min(...values)`);
the `[]` case is never used by the callers below. -/
def qMinL : List Q → Q
  | [] => ⟨0, 1⟩
  | v :: vs => vs.foldl qmin2 v

/-- Maximum of a nonempty value list (`Math.max(...values)`). -/
def qMaxL : List Q → Q
  | [] => ⟨0, 1⟩
  | v :: vs => vs.foldl qmax2 v

/-- `Math.floor` of a nonnegative `Q`, as a natural number. -/
def qFloorNat (q : Q) : Nat := q.num.toNat / q.den

/-- `Math.ceil` of a nonnegative `Q`, as a natural number. -/
def qCeilNat (q : Q) : Nat := (q.num.toNat + q.den - 1) / q.den

/-- Reciprocal of a positive `Q`. -/
def qInvPos (q : Q) : Q := ⟨(q.den : Int), q.num.toNat⟩

/-- `1 ≤ q`. -/
def qOneLe (q : Q) : Bool := Q.ble ⟨1, 1⟩ q

/-- Largest `k` with `10 ^ k ≤ n` (for `1 ≤ n`), by repeated division;
the fuel argument makes the recursion structural. -/
def log10floorAux : Nat → Nat → Nat
  | 0, _ => 0
  | fuel + 1, n => if n < 10 then 0 else log10floorAux fuel (n / 10) + 1

/-- `Math.floor(Math.log10(n))` for a positive natural `n`. -/
def log10floorN (n : Nat) : Nat := log10floorAux n n

/-- `Math.ceil(Math.log10(n))` for a positive natural `n`: smallest `k`
with `n ≤ 10 ^ k`. -/
def clog10N (n : Nat) : Nat := if n ≤ 1 then 0 else log10floorN (n - 1) + 1

/-- `Math.floor(Math.log10(q))` for a positive `q` (split on `q ≥ 1`,
using `floor(log10 q) = -ceil(log10 (1/q))` below one). -/
def floorLog10Q (q : Q) : Int :=
  if qOneLe q then (log10floorN (qFloorNat q) : Int)
  else -(clog10N (qCeilNat (qInvPos q)) : Int)

/-- `Math.ceil(Math.log10(q))` for a positive `q`. -/
def ceilLog10Q (q : Q) : Int :=
  if qOneLe q then (clog10N (qCeilNat q) : Int)
  else -(log10floorN (qFloorNat (qInvPos q)) : Int)

/-- `Math.pow(10, z)` as an exact fraction. -/
def qpow10 (z : Int) : Q :=
  if 0 ≤ z then ⟨(10 : Int) ^ z.toNat, 1⟩ else ⟨1, 10 ^ (-z).toNat⟩

/-- The `1e-10` guard used before taking `log10` of the minimum. -/
def epsQ : Q := ⟨1, 10 ^ 10⟩

/-- The integers from `lo` to `hi` inclusive (empty when `hi < lo`),
modelling `for (let i = lo; i <= hi; i++)`. -/
def rangeInt (lo hi : Int) : List Int :=
  (List.range (hi + 1 - lo).toNat).map (fun (i : Nat) => lo + (i : Int))

/-! ### EC10eq dataset model (`ec10eq-plot-utils.ts`) -/

/-- One measured endpoint, the element type of the per-species lists in
the detailed format. -/
structure Obs where
  EC10eq : Q
  test_id : Nat
  year : Nat
  author : String
deriving DecidableEq, Repr

/-- One record of the simple (flat) wire format. -/
structure Endpoint where
  trophic_group : String
  species : String
  EC10eq : Q
  test_id : Nat
  year : Nat
  author : String
deriving DecidableEq, Repr

/-- The detailed wire format: trophic group → species → observations.
JavaScript objects are modelled as ordered association lists. -/
structure EC10eqDataDetailed where
  cas : String
  chemical_name : Option String
  trophic_groups : List (String × List (String × List Obs))
deriving DecidableEq, Repr

/-- The simple wire format: a flat endpoint list. -/
structure EC10eqDataSimple where
  cas : String
  chemical_name : Option String
  endpoints : List Endpoint
deriving DecidableEq, Repr

/-- The union consumed by `createEC10eqPlotFromData`. -/
inductive EC10eqData where
  | detailed (d : EC10eqDataDetailed)
  | simple (s : EC10eqDataSimple)
deriving DecidableEq, Repr

/-- The `colorBy` parameter. -/
inductive ColorBy where
  | trophic_group
  | year
  | author
deriving DecidableEq, Repr

/-- `TROPHIC_GROUP_COLORS` from the source. -/
def TROPHIC_GROUP_COLORS : List (String × String) :=
  [("algae", "#2ca02c"), ("crustaceans", "#1f77b4"), ("fish", "#ff7f0e"),
   ("plants", "#9467bd"), ("molluscs", "#8c564b"), ("insects", "#e377c2"),
   ("amphibians", "#7f7f7f"), ("annelids", "#bcbd22")]

/-- `TROPHIC_GROUP_SYMBOLS` from the source. -/
def TROPHIC_GROUP_SYMBOLS : List (String × String) :=
  [("algae", "circle"), ("crustaceans", "square"), ("fish", "triangle-up"),
   ("plants", "diamond"), ("molluscs", "diamond"), ("insects", "x"),
   ("amphibians", "star"), ("annelids", "hourglass")]

/-- The fixed 10-entry `colorPalette` used by the byYear and byAuthor
modes. -/
def colorPalette : List String :=
  ["#1f77b4", "#ff7f0e", "#2ca02c", "#d62728", "#9467bd",
   "#8c564b", "#e377c2", "#7f7f7f", "#bcbd22", "#17becf"]

/-- `colorPalette[idx % colorPalette.length]` (the index is always in
range, so the fallback is arbitrary). -/
def paletteAt (i : Nat) : String := colorPalette.getD (i % colorPalette.length) ""

/-- The year-to-color map built by `uniqueYears.forEach(...)`, and its
author analogue: each element of `uniq` maps to the palette entry at its
position modulo the palette length. -/
def colorMapOf {α : Type} [DecidableEq α] (uniq : List α) : List (α × String) :=
  uniq.enum.map (fun p => (p.2, paletteAt p.1))

/-- The observation carried by a flat endpoint record. -/
def obsOfEndpoint (e : Endpoint) : Obs :=
  ⟨e.EC10eq, e.test_id, e.year, e.author⟩

/-- `detailed.trophic_groups[tg][species].push(obs)` after ensuring both
keys exist: append the observation to the bucket of `sp`, creating the
species key at the end if absent. -/
def pushObs : List (String × List Obs) → String → Obs → List (String × List Obs)
  | [], sp, o => [(sp, [o])]
  | (s, os) :: rest, sp, o =>
      if s = sp then (s, os ++ [o]) :: rest else (s, os) :: pushObs rest sp o

/-- Insert one flat endpoint into the nested accumulator, creating the
trophic-group key at the end if absent. -/
def pushEndpoint : List (String × List (String × List Obs)) → Endpoint →
    List (String × List (String × List Obs))
  | [], e => [(e.trophic_group, [(e.species, [obsOfEndpoint e])])]
  | (g, b) :: rest, e =>
      if g = e.trophic_group then (g, pushObs b e.species (obsOfEndpoint e)) :: rest
      else (g, b) :: pushEndpoint rest e

/-- `convertToDetailed` from the source: the detailed format passes
through, the simple format is grouped by trophic group then species in
first-seen order. -/
def convertToDetailed : EC10eqData → EC10eqDataDetailed
  | .detailed d => d
  | .simple s => ⟨s.cas, s.chemical_name, s.endpoints.foldl pushEndpoint []⟩

/-- One chart trace as built by the source. Constant presentation fields
(mode, type, marker size/opacity/line, hovertemplate) are omitted; every
field any claim refers to is kept. -/
structure Trace where
  x : List String
  y : List Q
  name : String
  markerColor : List String
  markerSymbol : String
  customdata : List (Nat × Nat × String)
  legendgroup : String
  showlegend : Bool
deriving DecidableEq, Repr

/-- The marker color list of one trace for the given mode, exactly as in
the source: a constant group color in byTrophicGroup mode, otherwise a
lookup in the map built from this species bucket's distinct sorted years
(respectively authors). -/
def traceColors (cb : ColorBy) (trophicGroup : String) (endpoints : List Obs) :
    List String :=
  match cb with
  | .trophic_group =>
      List.replicate endpoints.length
        (jsOrDefault (lookupA TROPHIC_GROUP_COLORS (jsToLower trophicGroup)) "#000000")
  | .year =>
      let years := endpoints.map (·.year)
      let uniqueYears := sortNumsJs (jsUnique years)
      let yearColors := colorMapOf uniqueYears
      years.map (fun y => jsOrDefault (lookupA yearColors y) "#000000")
  | .author =>
      let authors := endpoints.map (·.author)
      let uniqueAuthors := sortStrings (jsUnique authors)
      let authorColors := colorMapOf uniqueAuthors
      authors.map (fun a => jsOrDefault (lookupA authorColors a) "#000000")

/-- One trace of the output, as assembled in the per-species loop body. -/
def mkTrace (cb : ColorBy) (trophicGroup : String) (sortedSpecies : List String)
    (species : String) (endpoints : List Obs) : Trace :=
  let label := trophicGroup ++ " - " ++ species
  { x := List.replicate endpoints.length label
    y := endpoints.map (·.EC10eq)
    name := capitalizeJs trophicGroup
    markerColor := traceColors cb trophicGroup endpoints
    markerSymbol :=
      jsOrDefault (lookupA TROPHIC_GROUP_SYMBOLS (jsToLower trophicGroup)) "circle"
    customdata := endpoints.map (fun e => (e.test_id, e.year, e.author))
    legendgroup := trophicGroup
    showlegend := decide (sortedSpecies.head? = some species) }

/-- The y-axis tick values: powers of ten from `floor(log10(max(min,
1e-10)))` to `ceil(log10(max))`. An empty value list, or a nonpositive
maximum, makes the JavaScript loop bounds infinite or NaN so that no
tick is emitted; both cases yield `[]`. -/
def yTicksOf (vals : List Q) : List Q :=
  match vals with
  | [] => []
  | _ :: _ =>
      let minVal := qMinL vals
      let maxVal := qMaxL vals
      if maxVal.ble ⟨0, 1⟩ then []
      else
        let minPower := floorLog10Q (qmax2 minVal epsQ)
        let maxPower := ceilLog10Q maxVal
        (rangeInt minPower maxPower).map qpow10

/-- The layout fields of the output that claims refer to: the
`xaxis.tickvals` category list (`uniqueCombinations`) and the
`yaxis.tickvals` list. Constant presentation fields (title text, sizes,
margins, tick text) are omitted. -/
structure EC10Layout where
  xTickVals : List String
  yTickVals : List Q
deriving DecidableEq, Repr

/-- The chart description returned by the Series Builder. -/
structure PlotlyData where
  data : List Trace
  layout : EC10Layout
deriving DecidableEq, Repr

/-- `createEC10eqPlotFromData` from the source: normalise to the
detailed format, walk trophic groups and species in sorted order
building one trace and one category label per pair, then compute the
log-axis tick values from all y-values. -/
def createEC10eqPlotFromData (input : EC10eqData) (colorBy : ColorBy) : PlotlyData :=
  let d := convertToDetailed input
  let sortedTrophicGroups := sortStrings (d.trophic_groups.map (·.1))
  let traces := sortedTrophicGroups.flatMap (fun trophicGroup =>
    let groupData := (lookupA d.trophic_groups trophicGroup).getD []
    let sortedSpecies := sortStrings (groupData.map (·.1))
    sortedSpecies.map (fun species =>
      mkTrace colorBy trophicGroup sortedSpecies species
        ((lookupA groupData species).getD [])))
  let uniqueCombinations := sortedTrophicGroups.flatMap (fun trophicGroup =>
    let groupData := (lookupA d.trophic_groups trophicGroup).getD []
    (sortStrings (groupData.map (·.1))).map
      (fun species => trophicGroup ++ " - " ++ species))
  let allEC10Values := traces.flatMap (·.y)
  { data := traces
    layout := { xTickVals := uniqueCombinations, yTickVals := yTicksOf allEC10Values } }

/-! ### JSON values and JavaScript object semantics (Part B) -/

/-- A JSON value as received from the fetch layer. Objects are ordered
field lists (JavaScript objects; unique keys in any value that actually
comes over the wire). -/
inductive JVal where
  | null
  | bool (b : Bool)
  | num (q : Q)
  | str (s : String)
  | arr (elems : List JVal)
  | obj (fields : List (String × JVal))

/-- A JavaScript object: its ordered field list. -/
abbrev JObj := List (String × JVal)

/-- The key list of an object. -/
def keysOf (o : JObj) : List String := o.map (·.1)

/-- `{...base, ...extra}`: assign every field of `extra` onto a copy of
`base`, in order (later duplicates win, positions of existing keys are
kept). -/
def jspread (base extra : JObj) : JObj :=
  extra.foldl (fun acc kv => setA acc kv.1 kv.2) base

/-- `{...v}` for a possibly-absent value: objects contribute their
fields, `null`/`undefined`/numbers/booleans contribute nothing. (String
index-spreading does not occur for the layout regions modelled here.) -/
def spreadOpt : Option JVal → JObj
  | some (.obj f) => f
  | _ => []

/-- `v?.k`: property read through optional chaining; reading a property
of a non-object yields `undefined`. -/
def optGet (v : Option JVal) (k : String) : Option JVal :=
  match v with
  | some (.obj f) => lookupA f k
  | _ => none

/-- `x ?? d`: nullish coalescing (`null` and `undefined` fall back). -/
def jsCoalesce (v : Option JVal) (d : JVal) : JVal :=
  match v with
  | some .null => d
  | some w => w
  | none => d

/-- Whether an optional value is exactly the boolean `false` (the test
`x !== false` is its negation). -/
def isBoolFalse : Option JVal → Bool
  | some (.bool false) => true
  | _ => false

/-- JavaScript truthiness of a value. -/
def jsTruthy : JVal → Bool
  | .null => false
  | .bool b => b
  | .num q => !(decide (q.num = 0))
  | .str s => !(decide (s = ""))
  | .arr _ => true
  | .obj _ => true

/-- `{...axisValue, automargin: axisValue?.automargin ?? true}`: the
automargin-injection applied to each axis region. -/
def injectAutomargin (v : Option JVal) : JVal :=
  .obj (setA (spreadOpt v) "automargin" (jsCoalesce (optGet v "automargin") (.bool true)))

/-- The regular expression `^(x|y)axis\d+$` on the character list of a
key. -/
def isSecAxisKeyChars : List Char → Bool
  | c :: 'a' :: 'x' :: 'i' :: 's' :: rest =>
      (decide (c = 'x') || decide (c = 'y')) && !rest.isEmpty && rest.all (·.isDigit)
  | _ => false

/-- Whether a layout key names a secondary axis (`xaxis2`, `yaxis3`, ...). -/
def isSecAxisKey (s : String) : Bool := isSecAxisKeyChars s.data

/-- The `secondaryAxes` object of `BenchmarkComparison`: every layout
key matching the secondary-axis pattern, mapped to its automargin-
injected value. -/
def secondaryAxesOf (layout : JObj) : JObj :=
  ((keysOf layout).filter (fun k => isSecAxisKey k)).map
    (fun k => (k, injectAutomargin (lookupA layout k)))

/-- The default margin object of both components. -/
def defaultMarginObj : JObj :=
  [("l", .num ⟨80, 1⟩), ("r", .num ⟨120, 1⟩), ("t", .num ⟨100, 1⟩),
   ("b", .num ⟨120, 1⟩), ("pad", .num ⟨10, 1⟩)]

/-- The complete default legend block used by `BenchmarkComparison`
when the source supplies no legend. -/
def bcDefaultLegend : JVal :=
  .obj [("orientation", .str "v"), ("x", .num ⟨102, 100⟩), ("y", .num ⟨1, 1⟩),
        ("xanchor", .str "left"), ("yanchor", .str "top"), ("visible", .bool true),
        ("font", .obj [("size", .num ⟨11, 1⟩)])]

/-- The merged legend of `BenchmarkComparison` when the source legend is
truthy: spread the source legend, then fill orientation, position
anchors and visibility only where absent, and merge the font block
field-by-field over a size default. -/
def bcLegendMerge (lv : JVal) : JVal :=
  let lg0 := spreadOpt (some lv)
  let lg1 := setA lg0 "orientation" (jsCoalesce (optGet (some lv) "orientation") (.str "v"))
  let lg2 := setA lg1 "x" (jsCoalesce (optGet (some lv) "x") (.num ⟨102, 100⟩))
  let lg3 := setA lg2 "y" (jsCoalesce (optGet (some lv) "y") (.num ⟨1, 1⟩))
  let lg4 := setA lg3 "xanchor" (jsCoalesce (optGet (some lv) "xanchor") (.str "left"))
  let lg5 := setA lg4 "yanchor" (jsCoalesce (optGet (some lv) "yanchor") (.str "top"))
  let lg6 := setA lg5 "visible" (.bool (!isBoolFalse (optGet (some lv) "visible")))
  .obj (setA lg6 "font"
    (.obj (jspread [("size", .num ⟨11, 1⟩)] (spreadOpt (optGet (some lv) "font")))))

/-- `enhancedLayout` of `BenchmarkComparison.tsx`: spread the source
layout, set autosize/showlegend preserving specified values, merge
margin and font field-by-field over defaults, inject automargin into the
primary axes, re-assign all discovered secondary axes, and merge the
legend. -/
def bcEnhancedLayout (layout : JObj) : JObj :=
  let secondaryAxes := secondaryAxesOf layout
  let s0 := jspread [] layout
  let s1 := setA s0 "autosize" (jsCoalesce (lookupA layout "autosize") (.bool true))
  let s2 := setA s1 "showlegend" (.bool (!isBoolFalse (lookupA layout "showlegend")))
  let s3 := setA s2 "margin" (.obj (jspread defaultMarginObj (spreadOpt (lookupA layout "margin"))))
  let s4 := setA s3 "font" (.obj (jspread [("size", .num ⟨12, 1⟩)] (spreadOpt (lookupA layout "font"))))
  let s5 := setA s4 "xaxis" (injectAutomargin (lookupA layout "xaxis"))
  let s6 := setA s5 "yaxis" (injectAutomargin (lookupA layout "yaxis"))
  let s7 := jspread s6 secondaryAxes
  let legendVal :=
    match lookupA layout "legend" with
    | some lv => if jsTruthy lv then bcLegendMerge lv else bcDefaultLegend
    | none => bcDefaultLegend
  setA s7 "legend" legendVal

/-- `enhancedLayout` of `PlotViewer.tsx`: spread the source layout, then
overwrite autosize with `true`, margin and font with fixed default
objects, force `automargin: true` on both primary axes, and overwrite
the legend's orientation, position anchors and font with fixed
defaults. -/
def pvEnhancedLayout (layout : JObj) : JObj :=
  let s0 := jspread [] layout
  let s1 := setA s0 "autosize" (.bool true)
  let s2 := setA s1 "margin" (.obj defaultMarginObj)
  let s3 := setA s2 "font" (.obj [("size", .num ⟨12, 1⟩)])
  let s4 := setA s3 "xaxis" (.obj (setA (spreadOpt (lookupA layout "xaxis")) "automargin" (.bool true)))
  let s5 := setA s4 "yaxis" (.obj (setA (spreadOpt (lookupA layout "yaxis")) "automargin" (.bool true)))
  let lg0 := spreadOpt (lookupA layout "legend")
  let lg1 := setA lg0 "orientation" (.str "v")
  let lg2 := setA lg1 "x" (.num ⟨102, 100⟩)
  let lg3 := setA lg2 "y" (.num ⟨1, 1⟩)
  let lg4 := setA lg3 "xanchor" (.str "left")
  let lg5 := setA lg4 "yanchor" (.str "top")
  let lg6 := setA lg5 "font" (.obj [("size", .num ⟨11, 1⟩)])
  setA s5 "legend" (.obj lg6)

/-- Read field `k` of the object stored under `region` in a layout. -/
def fieldOf (o : JObj) (region k : String) : Option JVal :=
  optGet (lookupA o region) k

/-- Whether an object has a property (`'k' in o`). -/
def hasKey (f : JObj) (k : String) : Bool :=
  match lookupA f k with
  | some _ => true
  | none => false

/-- `isEC10eqData` from the source: a truthy object with a `cas` key and
either `trophic_groups` or `endpoints`, and not shaped `{data, layout}`.
Non-objects (and arrays, which cannot carry these string keys) fail. -/
def isEC10eqDataJ : JVal → Bool
  | .obj f =>
      hasKey f "cas" && (hasKey f "trophic_groups" || hasKey f "endpoints") &&
        !(hasKey f "data" && hasKey f "layout")
  | _ => false

/-! ### Spec-side definitions used to state the claims -/

/-- The species keys of one trophic group of a detailed dataset. -/
def speciesKeysOf (d : EC10eqDataDetailed) (g : String) : List String :=
  ((lookupA d.trophic_groups g).getD []).map (·.1)

/-- The observation bucket of one (trophic group, species) pair. -/
def bucketOf (d : EC10eqDataDetailed) (g sp : String) : List Obs :=
  (lookupA ((lookupA d.trophic_groups g).getD []) sp).getD []

/-- The (trophic group, species) pairs of a dataset in the canonical
(sorted) traversal order of the Series Builder. -/
def seriesPairs (d : EC10eqDataDetailed) : List (String × String) :=
  (sortStrings (d.trophic_groups.map (·.1))).flatMap (fun g =>
    (sortStrings (speciesKeysOf d g)).map (fun sp => (g, sp)))

/-- The per-series color assignment described by the amended claim C2:
within one species bucket, each observation's color is the palette entry
at the position of its year in the sorted list of the bucket's distinct
years (cyclically); authors analogously. -/
def specBucketColors (cb : ColorBy) (endpoints : List Obs) : List String :=
  match cb with
  | .trophic_group => []
  | .year =>
      let years := endpoints.map (·.year)
      let uniq := sortNumsJs (jsUnique years)
      years.map (fun y => paletteAt (posOf uniq y))
  | .author =>
      let authors := endpoints.map (·.author)
      let uniq := sortStrings (jsUnique authors)
      authors.map (fun a => paletteAt (posOf uniq a))

/-- The per-series colors of all series in builder order, per the
amended claim C2. -/
def specSeriesColors (cb : ColorBy) (d : EC10eqDataDetailed) : List (List String) :=
  seriesPairs d |>.map (fun p => specBucketColors cb (bucketOf d p.1 p.2))

/-- The color assignment asserted by claim C2 as written: the distinct
years are collected across the *whole trophic group* (all species
together), sorted, mapped to the palette, and every species series of
the group is colored through that group-wide map. -/
def claimGroupYearColors (d : EC10eqDataDetailed) : List (List String) :=
  (sortStrings (d.trophic_groups.map (·.1))).flatMap (fun g =>
    let b := (lookupA d.trophic_groups g).getD []
    let groupYears := b.flatMap (fun p => p.2.map (·.year))
    let m := colorMapOf (sortNumsJs (jsUnique groupYears))
    (sortStrings (b.map (·.1))).map (fun sp =>
      ((lookupA b sp).getD []).map (fun o => jsOrDefault (lookupA m o.year) "#000000")))

/-! ### Concrete inputs used by counterexamples and witnesses -/

/-- Two species of one trophic group whose year sets differ: species
"A" observes year 2000 only, species "B" observes 1999 and 2000. -/
def dsC2 : EC10eqDataDetailed :=
  ⟨"50-00-0", none,
   [("fish",
     [("A", [⟨⟨1, 1⟩, 1, 2000, "Doe"⟩]),
      ("B", [⟨⟨2, 1⟩, 2, 1999, "Roe"⟩, ⟨⟨3, 1⟩, 3, 2000, "Doe"⟩])])]⟩

/-- The empty dataset (`trophic_groups: {}`). -/
def dsEmpty : EC10eqDataDetailed := ⟨"100-42-5", some "styrene", []⟩

/-- A dataset whose two observation values are 0.003 and 250 (the
concrete instance named by claim C4). -/
def dsC4 : EC10eqDataDetailed :=
  ⟨"7440-50-8", none,
   [("fish", [("A", [⟨⟨3, 1000⟩, 1, 2000, "Doe"⟩, ⟨⟨250, 1⟩, 2, 2001, "Roe"⟩])])]⟩

/-- A flat dataset and a permutation of it, for claim C5. -/
def dsC5a : EC10eqDataSimple :=
  ⟨"71-43-2", none,
   [⟨"fish", "A", ⟨3, 1000⟩, 1, 2000, "Doe"⟩,
    ⟨"algae", "B", ⟨1, 2⟩, 3, 2001, "Poe"⟩,
    ⟨"fish", "C", ⟨250, 1⟩, 2, 1999, "Roe"⟩]⟩

/-- The same endpoints as `dsC5a` in a different order. -/
def dsC5b : EC10eqDataSimple :=
  ⟨"71-43-2", none,
   [⟨"fish", "C", ⟨250, 1⟩, 2, 1999, "Roe"⟩,
    ⟨"fish", "A", ⟨3, 1000⟩, 1, 2000, "Doe"⟩,
    ⟨"algae", "B", ⟨1, 2⟩, 3, 2001, "Poe"⟩]⟩

/-- A two-group dataset with two species in one group, for the C6, C9
and C10 witnesses. -/
def dsC6 : EC10eqDataDetailed :=
  ⟨"50-00-0", some "formaldehyde",
   [("fish",
     [("minnow", [⟨⟨3, 1000⟩, 1, 2000, "Doe"⟩, ⟨⟨250, 1⟩, 2, 1999, "Roe"⟩]),
      ("carp", [⟨⟨1, 2⟩, 4, 1999, "Doe"⟩])]),
    ("algae", [("chlorella", [⟨⟨5, 1⟩, 3, 2001, "Poe"⟩])])]⟩

/-- A payload with `trophic_groups` but no `cas` key, for claim C8. -/
def objC8 : JObj := [("trophic_groups", JVal.obj [])]

/-- A `{data, layout}` chart payload, for the C8 witness. -/
def objC8chart : JObj :=
  [("cas", JVal.str "50-00-0"), ("trophic_groups", JVal.obj []),
   ("data", JVal.arr []), ("layout", JVal.obj [])]

/-- A source layout whose margin specifies `l: 5`, for claim C1. -/
def layC1cex : JObj := [("margin", JVal.obj [("l", JVal.num ⟨5, 1⟩)])]

/-- A source layout exercising every merged region, for the C1 witness:
margin and font partially specified, an x-axis with `automargin: false`,
a legend with a position and a font family, a secondary axis, and
explicit autosize/showlegend flags. -/
def layC1w : JObj :=
  [("margin", JVal.obj [("l", JVal.num ⟨7, 1⟩)]),
   ("font", JVal.obj [("family", JVal.str "Arial")]),
   ("xaxis", JVal.obj [("title", JVal.str "T"), ("automargin", JVal.bool false)]),
   ("yaxis", JVal.obj [("type", JVal.str "log")]),
   ("xaxis3", JVal.obj [("range", JVal.arr [JVal.num ⟨0, 1⟩, JVal.num ⟨5, 1⟩])]),
   ("legend", JVal.obj [("x", JVal.num ⟨2, 1⟩), ("visible", JVal.bool false),
                        ("font", JVal.obj [("family", JVal.str "Mono")])]),
   ("autosize", JVal.bool false),
   ("showlegend", JVal.bool false),
   ("annotations", JVal.arr [JVal.str "keep"])]

/-- A source layout with two secondary axes and no matching defaults,
for the C7 witness. -/
def layC7w : JObj :=
  [("xaxis3", JVal.obj [("title", JVal.str "S3")]),
   ("yaxis2", JVal.obj [("title", JVal.str "S2"), ("automargin", JVal.bool false)]),
   ("title", JVal.str "main")]

/-! ### Order instances for the sorting relation -/

/-- Underlying-list extensionality for strings. -/
def strOfDataEq : ∀ {a b : String}, a.data = b.data → a = b
  | ⟨_⟩, ⟨_⟩, h => congrArg String.mk h

instance : IsTotal String strLeProp where
  total a b := by
    suffices h : ∀ x y : List Char, lexLe x y = true ∨ lexLe y x = true from h a.data b.data
    intro x
    induction x with
    | nil => intro y; left; rfl
    | cons c cs ih =>
      intro y
      cases y with
      | nil => right; rfl
      | cons d ds =>
        by_cases hcd : c = d
        · subst hcd
          rcases ih ds with h | h
          · left; simpa [lexLe] using h
          · right; simpa [lexLe] using h
        · rcases lt_or_gt_of_ne hcd with h | h
          · left; simp [lexLe, hcd, h]
          · right
            have hdc : ¬ d = c := fun e => hcd e.symm
            simp [lexLe, hdc, h]

instance : IsTrans String strLeProp where
  trans a b c := by
    suffices h : ∀ x y z : List Char,
        lexLe x y = true → lexLe y z = true → lexLe x z = true from h a.data b.data c.data
    intro x
    induction x with
    | nil => intro y z _ _; rfl
    | cons a as ih =>
      intro y z hxy hyz
      cases y with
      | nil => simp [lexLe] at hxy
      | cons b bs =>
        cases z with
        | nil => simp [lexLe] at hyz
        | cons c cs =>
          by_cases hab : a = b <;> by_cases hbc : b = c
          · subst hab; subst hbc
            simp only [lexLe, if_pos rfl] at hxy hyz ⊢
            exact ih bs cs hxy hyz
          · subst hab
            simp only [lexLe, if_pos rfl] at hxy
            simp only [lexLe, if_neg hbc, decide_eq_true_eq] at hyz
            simp [lexLe, hbc, hyz]
          · subst hbc
            simp only [lexLe, if_neg hab, decide_eq_true_eq] at hxy
            simp [lexLe, hab, hxy]
          · simp only [lexLe, if_neg hab, decide_eq_true_eq] at hxy
            simp only [lexLe, if_neg hbc, decide_eq_true_eq] at hyz
            have hac : a < c := lt_trans hxy hyz
            simp [lexLe, ne_of_lt hac, hac]

instance : IsAntisymm String strLeProp where
  antisymm a b h₁ h₂ := by
    refine strOfDataEq ?_
    revert h₁ h₂
    suffices h : ∀ x y : List Char,
        lexLe x y = true → lexLe y x = true → x = y from fun h₁ h₂ => h a.data b.data h₁ h₂
    intro x
    induction x with
    | nil =>
      intro y _ hyx
      cases y with
      | nil => rfl
      | cons d ds => simp [lexLe] at hyx
    | cons c cs ih =>
      intro y hxy hyx
      cases y with
      | nil => simp [lexLe] at hxy
      | cons d ds =>
        by_cases hcd : c = d
        · subst hcd
          simp only [lexLe, if_pos rfl] at hxy hyx
          rw [ih ds hxy hyx]
        · have hdc : ¬ d = c := fun e => hcd e.symm
          simp only [lexLe, if_neg hcd, decide_eq_true_eq] at hxy
          simp only [lexLe, if_neg hdc, decide_eq_true_eq] at hyx
          exact absurd hxy (lt_asymm hyx)

/-! ### Association-list lemmas -/

theorem lookupA_eq_none_iff {κ β : Type} [DecidableEq κ] {l : List (κ × β)} {k : κ} :
    lookupA l k = none ↔ k ∉ l.map Prod.fst := by
  induction l with
  | nil => simp [lookupA]
  | cons p rest ih =>
    obtain ⟨k0, v0⟩ := p
    by_cases h : k0 = k
    · subst h; simp [lookupA]
    · have h' : ¬ k = k0 := fun e => h e.symm
      simp [lookupA, h, h', ih]

theorem lookupA_mem {κ β : Type} [DecidableEq κ] {l : List (κ × β)} {k : κ} {v : β}
    (h : lookupA l k = some v) : (k, v) ∈ l := by
  induction l with
  | nil => simp [lookupA] at h
  | cons p rest ih =>
    obtain ⟨k0, v0⟩ := p
    by_cases hk : k0 = k
    · subst hk
      simp only [lookupA, if_pos rfl, if_true, Option.some.injEq] at h
      rw [← h]
      exact List.mem_cons_self ..
    · simp only [lookupA, if_neg hk] at h
      exact List.mem_cons_of_mem _ (ih h)

theorem lookupA_mem_keys {κ β : Type} [DecidableEq κ] {l : List (κ × β)} {k : κ} {v : β}
    (h : lookupA l k = some v) : k ∈ l.map Prod.fst := by
  by_contra hk
  rw [← lookupA_eq_none_iff] at hk
  rw [h] at hk
  exact Option.noConfusion hk

theorem lookupA_self_of_nodup {κ β : Type} [DecidableEq κ] {l : List (κ × β)}
    (hnd : (l.map Prod.fst).Nodup) {p : κ × β} (hp : p ∈ l) : lookupA l p.1 = some p.2 := by
  induction l with
  | nil => simp at hp
  | cons q rest ih =>
    obtain ⟨k0, v0⟩ := q
    simp only [List.map_cons, List.nodup_cons] at hnd
    rcases List.mem_cons.mp hp with h | h
    · subst h; simp [lookupA]
    · have hne : ¬ k0 = p.1 := by
        intro e
        exact hnd.1 (e ▸ List.mem_map_of_mem Prod.fst h)
      simp only [lookupA, if_neg hne]
      exact ih hnd.2 h

theorem setA_lookup_self {κ β : Type} [DecidableEq κ] (l : List (κ × β)) (k : κ) (v : β) :
    lookupA (setA l k v) k = some v := by
  induction l with
  | nil => simp [setA, lookupA]
  | cons p rest ih =>
    obtain ⟨k0, v0⟩ := p
    by_cases h : k0 = k
    · subst h; simp [setA, lookupA]
    · simp [setA, lookupA, h, ih]

theorem setA_lookup_ne {κ β : Type} [DecidableEq κ] (l : List (κ × β)) (k : κ) (v : β)
    {k' : κ} (hne : k' ≠ k) : lookupA (setA l k v) k' = lookupA l k' := by
  have hkk : ¬ k = k' := fun e => hne e.symm
  induction l with
  | nil => simp [setA, lookupA, hkk]
  | cons p rest ih =>
    obtain ⟨k0, v0⟩ := p
    by_cases h : k0 = k
    · subst h
      simp [setA, lookupA, hkk]
    · by_cases h0 : k0 = k'
      · subst h0
        simp [setA, lookupA, h]
      · simp [setA, lookupA, h, h0, ih]

theorem jspread_lookup_notmem {e : JObj} {k : String} (hk : k ∉ keysOf e) (b : JObj) :
    lookupA (jspread b e) k = lookupA b k := by
  induction e generalizing b with
  | nil => rfl
  | cons p rest ih =>
    simp only [keysOf, List.map_cons, List.mem_cons, not_or] at hk
    show lookupA (jspread (setA b p.1 p.2) rest) k = lookupA b k
    rw [ih (by simpa [keysOf] using hk.2), setA_lookup_ne _ _ _ hk.1]

theorem jspread_lookup_some {e : JObj} (hnd : (keysOf e).Nodup) {k : String} {v : JVal}
    (hv : lookupA e k = some v) (b : JObj) : lookupA (jspread b e) k = some v := by
  induction e generalizing b with
  | nil => simp [lookupA] at hv
  | cons p rest ih =>
    obtain ⟨k0, v0⟩ := p
    simp only [keysOf, List.map_cons, List.nodup_cons] at hnd
    show lookupA (jspread (setA b k0 v0) rest) k = some v
    by_cases h : k0 = k
    · subst h
      simp only [lookupA, if_pos rfl, if_true, Option.some.injEq] at hv
      rw [jspread_lookup_notmem (by simpa [keysOf] using hnd.1), setA_lookup_self, hv]
    · simp only [lookupA, if_neg h] at hv
      exact ih hnd.2 hv _

theorem jspread_lookup_none {e : JObj} {k : String} (hk : lookupA e k = none) (b : JObj) :
    lookupA (jspread b e) k = lookupA b k :=
  jspread_lookup_notmem (by simpa [keysOf] using lookupA_eq_none_iff.mp hk) b

/-! ### Sorting lemmas -/

theorem sortStrings_perm (l : List String) : List.Perm (sortStrings l) l :=
  List.perm_insertionSort strLeProp l

theorem sortStrings_sorted (l : List String) : List.Sorted strLeProp (sortStrings l) :=
  List.sorted_insertionSort strLeProp l

theorem sortStrings_eq_of_perm {l₁ l₂ : List String} (h : List.Perm l₁ l₂) :
    sortStrings l₁ = sortStrings l₂ :=
  List.eq_of_perm_of_sorted
    ((sortStrings_perm l₁).trans (h.trans (sortStrings_perm l₂).symm))
    (sortStrings_sorted l₁) (sortStrings_sorted l₂)

theorem sortStrings_mem {l : List String} {a : String} : a ∈ sortStrings l ↔ a ∈ l :=
  (sortStrings_perm l).mem_iff

theorem strLeProp_refl (a : String) : strLeProp a a := by
  show lexLe a.data a.data = true
  induction a.data with
  | nil => rfl
  | cons c cs ih => simpa [lexLe] using ih

/-- For a sorted list, being the head is the same as being a lower bound
(the "alphabetically first" element). -/
theorem head_sortStrings_iff {l : List String} {a : String} (ha : a ∈ sortStrings l) :
    (sortStrings l).head? = some a ↔ ∀ b ∈ sortStrings l, strLeProp a b := by
  rcases hs : sortStrings l with _ | ⟨x, xs⟩
  · rw [hs] at ha; simp at ha
  · have hsorted := sortStrings_sorted l
    rw [hs] at hsorted ha
    rw [List.sorted_cons] at hsorted
    simp only [List.head?_cons, Option.some.injEq]
    constructor
    · rintro rfl
      intro b hb
      rcases List.mem_cons.mp hb with rfl | hb
      · exact strLeProp_refl _
      · exact hsorted.1 b hb
    · intro hlb
      have h₁ : strLeProp a x := hlb x (List.mem_cons_self ..)
      have h₂ : strLeProp x a := by
        rcases List.mem_cons.mp ha with rfl | ha
        · exact strLeProp_refl _
        · exact hsorted.1 a ha
      exact (antisymm h₂ h₁ : x = a)

/-! ### Claim C8: the dataset-format detector -/

/-- Claim C8, counterexample: the object `{trophic_groups: {}}` contains
`trophic_groups` and is not `{data, layout}` shaped, yet the detector
rejects it (it also requires a `cas` key, which the claim omits). -/
theorem C8_counterexample :
    hasKey objC8 "trophic_groups" = true ∧ hasKey objC8 "data" = false ∧
      isEC10eqDataJ (JVal.obj objC8) = false := by
  exact ⟨rfl, rfl, rfl⟩

/-- Claim C8 (amended): the detector accepts exactly the objects that
contain a `cas` key together with `trophic_groups` or `endpoints` and
are not `{data, layout}` shaped; in particular every `{data, layout}`
shaped payload is rejected. -/
theorem C8_amended :
    (∀ f : JObj, isEC10eqDataJ (JVal.obj f) = true ↔
      (hasKey f "cas" = true ∧ (hasKey f "trophic_groups" = true ∨ hasKey f "endpoints" = true) ∧
        ¬(hasKey f "data" = true ∧ hasKey f "layout" = true)))
    ∧ (∀ f : JObj, hasKey f "data" = true → hasKey f "layout" = true →
        isEC10eqDataJ (JVal.obj f) = false) := by
  constructor
  · intro f
    cases h1 : hasKey f "cas" <;> cases h2 : hasKey f "trophic_groups" <;>
      cases h3 : hasKey f "endpoints" <;> cases h4 : hasKey f "data" <;>
      cases h5 : hasKey f "layout" <;> simp_all [isEC10eqDataJ]
  · intro f hd hl
    simp [isEC10eqDataJ, hd, hl]

/-- Witness for C8 (amended): a concrete `{data, layout}` payload (even
one that also has `cas` and `trophic_groups`) is rejected. -/
theorem C8_amended_witness :
    hasKey objC8chart "data" = true ∧ hasKey objC8chart "layout" = true ∧
      isEC10eqDataJ (JVal.obj objC8chart) = false :=
  ⟨rfl, rfl, C8_amended.2 objC8chart rfl rfl⟩

/-! ### Claim C3: the empty dataset -/

/-- Claim C3, counterexample: on the empty dataset the Series Builder
returns an ordinary chart description whose series list is empty — not
a distinct "no data" result. -/
theorem C3_counterexample :
    createEC10eqPlotFromData (.detailed dsEmpty) .trophic_group
      = ⟨[], ⟨[], []⟩⟩ := by decide

/-- Claim C3 (amended): for every empty dataset (any CAS and name) and
every color mode, the Series Builder returns the ordinary chart
description with an empty series list and empty tick lists; there is no
separate "no data" signal, so callers can only detect emptiness from
the empty series list. -/
theorem C3_amended (cas : String) (nm : Option String) (cb : ColorBy) :
    createEC10eqPlotFromData (.detailed ⟨cas, nm, []⟩) cb = ⟨[], ⟨[], []⟩⟩ := rfl

/-- Witness for C3 (amended) at a concrete empty dataset. -/
theorem C3_amended_witness :
    createEC10eqPlotFromData (.detailed ⟨"100-42-5", some "styrene", []⟩) .year
      = ⟨[], ⟨[], []⟩⟩ :=
  C3_amended "100-42-5" (some "styrene") .year

/-! ### Palette and color-map lemmas (claims C2 and C10) -/

theorem flatMap_congr {α β : Type} {l : List α} {f g : α → List β}
    (h : ∀ a ∈ l, f a = g a) : l.flatMap f = l.flatMap g := by
  induction l with
  | nil => rfl
  | cons x xs ih =>
    simp only [List.flatMap_cons]
    rw [h x (List.mem_cons_self ..), ih (fun a ha => h a (List.mem_cons_of_mem _ ha))]

theorem jsUnique_mem_aux {α : Type} [DecidableEq α] (l acc : List α) (a : α) :
    a ∈ l.foldl (fun acc x => if x ∈ acc then acc else acc ++ [x]) acc ↔
      a ∈ acc ∨ a ∈ l := by
  induction l generalizing acc with
  | nil => simp
  | cons x xs ih =>
    simp only [List.foldl_cons]
    rw [ih]
    by_cases hx : x ∈ acc
    · have : a = x → a ∈ acc := fun e => e ▸ hx
      simp only [if_pos hx, List.mem_cons]
      tauto
    · simp only [if_neg hx, List.mem_append, List.mem_singleton, List.mem_cons]
      tauto

theorem jsUnique_mem {α : Type} [DecidableEq α] {l : List α} {a : α} :
    a ∈ jsUnique l ↔ a ∈ l := by
  rw [jsUnique, jsUnique_mem_aux]
  simp

theorem palette_entries_ok : ∀ s ∈ colorPalette, s ≠ "" ∧ s ≠ "#000000" := by decide

theorem paletteAt_mem (i : Nat) : paletteAt i ∈ colorPalette := by
  have hlen : i % colorPalette.length < colorPalette.length :=
    Nat.mod_lt _ (by decide)
  rw [paletteAt, List.getD_eq_getElem _ _ hlen]
  exact List.getElem_mem ..

theorem jsOrDefault_palette (i : Nat) (d : String) :
    jsOrDefault (some (paletteAt i)) d = paletteAt i := by
  have h := (palette_entries_ok _ (paletteAt_mem i)).1
  simp [jsOrDefault, h]

theorem lookup_colorMapOf_enumFrom {α : Type} [DecidableEq α] (u : List α) :
    ∀ (n : Nat) (y : α), y ∈ u →
      lookupA ((u.enumFrom n).map (fun p => (p.2, paletteAt p.1))) y
        = some (paletteAt (n + posOf u y)) := by
  induction u with
  | nil => simp
  | cons x xs ih =>
    intro n y hy
    rw [List.enumFrom_cons]
    simp only [List.map_cons]
    by_cases hxy : x = y
    · subst hxy
      simp [lookupA, posOf]
    · have hyxs : y ∈ xs := by
        rcases List.mem_cons.mp hy with h | h
        · exact absurd h.symm hxy
        · exact h
      simp only [lookupA, if_neg hxy, posOf]
      rw [ih (n + 1) y hyxs]
      have harg : n + 1 + posOf xs y = n + (posOf xs y + 1) := by omega
      rw [harg]

theorem lookup_colorMapOf {α : Type} [DecidableEq α] {u : List α} {y : α} (hy : y ∈ u) :
    lookupA (colorMapOf u) y = some (paletteAt (posOf u y)) := by
  have h := lookup_colorMapOf_enumFrom u 0 y hy
  simpa [colorMapOf, List.enum] using h

theorem traceColors_year_eq (g : String) (endpoints : List Obs) :
    traceColors .year g endpoints = specBucketColors .year endpoints := by
  simp only [traceColors, specBucketColors]
  apply List.map_congr_left
  intro y hy
  have hyu : y ∈ sortNumsJs (jsUnique (endpoints.map (·.year))) :=
    (List.perm_insertionSort numStrLeProp _).mem_iff.mpr (jsUnique_mem.mpr hy)
  rw [lookup_colorMapOf hyu, jsOrDefault_palette]

theorem traceColors_author_eq (g : String) (endpoints : List Obs) :
    traceColors .author g endpoints = specBucketColors .author endpoints := by
  simp only [traceColors, specBucketColors]
  apply List.map_congr_left
  intro a ha
  have hau : a ∈ sortStrings (jsUnique (endpoints.map (·.author))) :=
    sortStrings_mem.mpr (jsUnique_mem.mpr ha)
  rw [lookup_colorMapOf hau, jsOrDefault_palette]

/-! ### Claim C2: byYear / byAuthor color keying -/

/-- Claim C2, counterexample: in the dataset `dsC2` the trophic group
"fish" observes years 1999 and 2000 across its two species, but species
"A" (years {2000} only) gets the palette color at position 0, not the
group-wide position of 2000 (position 1) that the claim predicts. -/
theorem C2_counterexample :
    (createEC10eqPlotFromData (.detailed dsC2) .year).data.map (·.markerColor)
        = [["#1f77b4"], ["#1f77b4", "#ff7f0e"]]
    ∧ claimGroupYearColors dsC2 = [["#ff7f0e"], ["#1f77b4", "#ff7f0e"]]
    ∧ (createEC10eqPlotFromData (.detailed dsC2) .year).data.map (·.markerColor)
        ≠ claimGroupYearColors dsC2 := by
  refine ⟨by decide, by decide, by decide⟩

/-- Claim C2 (amended): in colorMode byYear each point's color is
determined per (trophic group, species) series — the distinct years of
that species bucket alone are sorted (JavaScript default string sort)
and mapped cyclically onto the fixed 10-entry palette by position;
byAuthor is the identical procedure keyed by author. The year/author
set is not group-wide (and not dataset-wide). -/
theorem create_data_shape (input : EC10eqData) (cb : ColorBy) :
    (createEC10eqPlotFromData input cb).data
      = (sortStrings ((convertToDetailed input).trophic_groups.map (·.1))).flatMap
          (fun g =>
            (sortStrings (speciesKeysOf (convertToDetailed input) g)).map
              (fun sp =>
                mkTrace cb g (sortStrings (speciesKeysOf (convertToDetailed input) g)) sp
                  (bucketOf (convertToDetailed input) g sp))) := rfl

theorem create_xTickVals_shape (input : EC10eqData) (cb : ColorBy) :
    (createEC10eqPlotFromData input cb).layout.xTickVals
      = (sortStrings ((convertToDetailed input).trophic_groups.map (·.1))).flatMap
          (fun g =>
            (sortStrings (speciesKeysOf (convertToDetailed input) g)).map
              (fun sp => g ++ " - " ++ sp)) := rfl

theorem C2_amended :
    (∀ input : EC10eqData,
      (createEC10eqPlotFromData input .year).data.map (·.markerColor)
        = specSeriesColors .year (convertToDetailed input))
    ∧ (∀ input : EC10eqData,
      (createEC10eqPlotFromData input .author).data.map (·.markerColor)
        = specSeriesColors .author (convertToDetailed input)) := by
  constructor
  all_goals
    intro input
    rw [create_data_shape]
    simp only [specSeriesColors, seriesPairs, List.map_flatMap, List.map_map]
    apply flatMap_congr
    intro g _
    apply List.map_congr_left
    intro sp _
    simp only [Function.comp_apply, mkTrace]
    first
      | exact traceColors_year_eq g _
      | exact traceColors_author_eq g _

/-! ### Claims C9 and C10: per-trace invariants -/

theorem traceColors_length (cb : ColorBy) (g : String) (endpoints : List Obs) :
    (traceColors cb g endpoints).length = endpoints.length := by
  cases cb <;> simp [traceColors]

/-- Claim C9: for every dataset and color mode, each produced series has
x, y, marker-color and customdata arrays of one common length, and its x
array is the composite group-dash-species label of its (group, species)
pair repeated once per observation. -/
theorem C9_invariants (input : EC10eqData) (cb : ColorBy) (t : Trace)
    (ht : t ∈ (createEC10eqPlotFromData input cb).data) :
    t.x.length = t.y.length ∧ t.markerColor.length = t.y.length ∧
      t.customdata.length = t.y.length ∧
      ∃ g sp, (g, sp) ∈ seriesPairs (convertToDetailed input) ∧
        t.x = List.replicate t.y.length (g ++ " - " ++ sp) := by
  rw [create_data_shape, List.mem_flatMap] at ht
  obtain ⟨g, hg, ht⟩ := ht
  rw [List.mem_map] at ht
  obtain ⟨sp, hsp, rfl⟩ := ht
  refine ⟨?_, ?_, ?_, g, sp, ?_, ?_⟩
  · simp [mkTrace]
  · simp [mkTrace, traceColors_length]
  · simp [mkTrace]
  · exact List.mem_flatMap.mpr ⟨g, hg, List.mem_map.mpr ⟨sp, hsp, rfl⟩⟩
  · simp [mkTrace]

/-- Witness for C9 at a concrete dataset and trace. -/
theorem C9_witness :
    (mkTrace .year "algae" ["chlorella"] "chlorella" [⟨⟨5, 1⟩, 3, 2001, "Poe"⟩])
        ∈ (createEC10eqPlotFromData (.detailed dsC6) .year).data ∧
    ((mkTrace .year "algae" ["chlorella"] "chlorella" [⟨⟨5, 1⟩, 3, 2001, "Poe"⟩]).x.length
        = (mkTrace .year "algae" ["chlorella"] "chlorella" [⟨⟨5, 1⟩, 3, 2001, "Poe"⟩]).y.length ∧
     (mkTrace .year "algae" ["chlorella"] "chlorella" [⟨⟨5, 1⟩, 3, 2001, "Poe"⟩]).markerColor.length
        = (mkTrace .year "algae" ["chlorella"] "chlorella" [⟨⟨5, 1⟩, 3, 2001, "Poe"⟩]).y.length ∧
     (mkTrace .year "algae" ["chlorella"] "chlorella" [⟨⟨5, 1⟩, 3, 2001, "Poe"⟩]).customdata.length
        = (mkTrace .year "algae" ["chlorella"] "chlorella" [⟨⟨5, 1⟩, 3, 2001, "Poe"⟩]).y.length ∧
     ∃ g sp, (g, sp) ∈ seriesPairs (convertToDetailed (.detailed dsC6)) ∧
       (mkTrace .year "algae" ["chlorella"] "chlorella" [⟨⟨5, 1⟩, 3, 2001, "Poe"⟩]).x
         = List.replicate
             (mkTrace .year "algae" ["chlorella"] "chlorella" [⟨⟨5, 1⟩, 3, 2001, "Poe"⟩]).y.length
             (g ++ " - " ++ sp)) :=
  ⟨by decide, C9_invariants (.detailed dsC6) .year _ (by decide)⟩

/-- Claim C10: in byYear and byAuthor modes the "#000000" fallback of
the marker-color lookup is unreachable — every point's color is one of
the fixed 10 palette entries (and in particular never "#000000"). -/
theorem C10_palette (input : EC10eqData) (cb : ColorBy)
    (hcb : cb = ColorBy.year ∨ cb = ColorBy.author) (t : Trace)
    (ht : t ∈ (createEC10eqPlotFromData input cb).data) (c : String)
    (hc : c ∈ t.markerColor) : c ∈ colorPalette ∧ c ≠ "#000000" := by
  rw [create_data_shape, List.mem_flatMap] at ht
  obtain ⟨g, hg, ht⟩ := ht
  rw [List.mem_map] at ht
  obtain ⟨sp, hsp, rfl⟩ := ht
  have hc' : c ∈ traceColors cb g (bucketOf (convertToDetailed input) g sp) := by
    simpa [mkTrace] using hc
  rcases hcb with rfl | rfl
  · rw [traceColors_year_eq] at hc'
    simp only [specBucketColors, List.mem_map] at hc'
    obtain ⟨y, _, rfl⟩ := hc'
    exact ⟨paletteAt_mem _, (palette_entries_ok _ (paletteAt_mem _)).2⟩
  · rw [traceColors_author_eq] at hc'
    simp only [specBucketColors, List.mem_map] at hc'
    obtain ⟨a, _, rfl⟩ := hc'
    exact ⟨paletteAt_mem _, (palette_entries_ok _ (paletteAt_mem _)).2⟩

/-- Witness for C10 at a concrete dataset, trace and point color. -/
theorem C10_witness :
    (mkTrace .year "algae" ["chlorella"] "chlorella" [⟨⟨5, 1⟩, 3, 2001, "Poe"⟩])
        ∈ (createEC10eqPlotFromData (.detailed dsC6) .year).data ∧
    "#1f77b4" ∈ (mkTrace .year "algae" ["chlorella"] "chlorella"
        [⟨⟨5, 1⟩, 3, 2001, "Poe"⟩]).markerColor ∧
    ("#1f77b4" ∈ colorPalette ∧ "#1f77b4" ≠ "#000000") :=
  ⟨by decide, by decide,
    C10_palette (.detailed dsC6) .year (Or.inl rfl)
      (mkTrace .year "algae" ["chlorella"] "chlorella" [⟨⟨5, 1⟩, 3, 2001, "Poe"⟩])
      (by decide) "#1f77b4" (by decide)⟩

/-! ### Grouping lemmas for the flat wire format (claim C5) -/

theorem keys_pushObs (b : List (String × List Obs)) (sp : String) (o : Obs) :
    (pushObs b sp o).map Prod.fst
      = if sp ∈ b.map Prod.fst then b.map Prod.fst else b.map Prod.fst ++ [sp] := by
  induction b with
  | nil => simp [pushObs]
  | cons p rest ih =>
    obtain ⟨s, os⟩ := p
    by_cases h : s = sp
    · subst h
      simp [pushObs]
    · have h' : ¬ sp = s := fun e => h e.symm
      by_cases hmem : sp ∈ rest.map Prod.fst <;>
        simp [pushObs, h, h', hmem, ih]

theorem keys_pushEndpoint (l : List (String × List (String × List Obs))) (e : Endpoint) :
    (pushEndpoint l e).map Prod.fst
      = if e.trophic_group ∈ l.map Prod.fst then l.map Prod.fst
        else l.map Prod.fst ++ [e.trophic_group] := by
  induction l with
  | nil => simp [pushEndpoint]
  | cons p rest ih =>
    obtain ⟨g, b⟩ := p
    by_cases h : g = e.trophic_group
    · subst h
      simp [pushEndpoint]
    · have h' : ¬ e.trophic_group = g := fun x => h x.symm
      by_cases hmem : e.trophic_group ∈ rest.map Prod.fst <;>
        simp [pushEndpoint, h, h', hmem, ih]

theorem nodup_keys_pushEndpoint (l : List (String × List (String × List Obs)))
    (e : Endpoint) (h : (l.map Prod.fst).Nodup) :
    ((pushEndpoint l e).map Prod.fst).Nodup := by
  rw [keys_pushEndpoint]
  by_cases hm : e.trophic_group ∈ l.map Prod.fst
  · simpa [hm] using h
  · simp [hm, List.nodup_append, h]

theorem lookup_pushEndpoint (l : List (String × List (String × List Obs)))
    (e : Endpoint) (g : String) :
    lookupA (pushEndpoint l e) g
      = if g = e.trophic_group
        then some (pushObs ((lookupA l g).getD []) e.species (obsOfEndpoint e))
        else lookupA l g := by
  induction l with
  | nil =>
    by_cases h : g = e.trophic_group
    · subst h
      simp [pushEndpoint, lookupA, pushObs]
    · have h' : ¬ e.trophic_group = g := fun x => h x.symm
      simp [pushEndpoint, lookupA, h, h']
  | cons p rest ih =>
    obtain ⟨g0, b⟩ := p
    by_cases h0 : g0 = e.trophic_group
    · by_cases hg : g0 = g
      · have hge : g = e.trophic_group := hg.symm.trans h0
        simp [pushEndpoint, lookupA, h0, hg, hge]
      · have hge : ¬ g = e.trophic_group := fun x => hg (h0.trans x.symm)
        have hgt : ¬ e.trophic_group = g := fun x => hge x.symm
        simp [pushEndpoint, lookupA, h0, hg, hge, hgt]
    · by_cases hg : g0 = g
      · have hge : ¬ g = e.trophic_group := fun x => h0 (hg.trans x)
        simp [pushEndpoint, lookupA, h0, hg, hge]
      · simp [pushEndpoint, lookupA, h0, hg, ih]

theorem keys_foldPush_mem (es : List Endpoint) :
    ∀ (acc : List (String × List (String × List Obs))) (g : String),
      g ∈ (es.foldl pushEndpoint acc).map Prod.fst ↔
        g ∈ acc.map Prod.fst ∨ ∃ e ∈ es, e.trophic_group = g := by
  induction es with
  | nil => simp
  | cons e rest ih =>
    intro acc g
    simp only [List.foldl_cons]
    rw [ih, keys_pushEndpoint]
    by_cases hm : e.trophic_group ∈ acc.map Prod.fst
    · simp only [if_pos hm, List.exists_mem_cons_iff]
      constructor
      · rintro (h | h)
        · exact Or.inl h
        · exact Or.inr (Or.inr h)
      · rintro (h | h | h)
        · exact Or.inl h
        · exact Or.inl (h ▸ hm)
        · exact Or.inr h
    · simp only [if_neg hm, List.mem_append, List.mem_singleton, List.exists_mem_cons_iff]
      constructor
      · rintro (h | h)
        · rcases h with h | h
          · exact Or.inl h
          · exact Or.inr (Or.inl h.symm)
        · exact Or.inr (Or.inr h)
      · rintro (h | h | h)
        · exact Or.inl (Or.inl h)
        · exact Or.inl (Or.inr h.symm)
        · exact Or.inr h

theorem keys_foldPush_nodup (es : List Endpoint) :
    ∀ acc, (acc.map Prod.fst).Nodup →
      ((es.foldl pushEndpoint acc).map Prod.fst).Nodup := by
  induction es with
  | nil => intro acc h; simpa using h
  | cons e rest ih =>
    intro acc h
    simp only [List.foldl_cons]
    exact ih _ (nodup_keys_pushEndpoint _ _ h)

theorem bkeys_foldPush_mem (es : List Endpoint) :
    ∀ (acc : List (String × List (String × List Obs))) (g s : String),
      s ∈ ((lookupA (es.foldl pushEndpoint acc) g).getD []).map Prod.fst ↔
        s ∈ ((lookupA acc g).getD []).map Prod.fst ∨
          ∃ e ∈ es, e.trophic_group = g ∧ e.species = s := by
  induction es with
  | nil => simp
  | cons e rest ih =>
    intro acc g s
    simp only [List.foldl_cons]
    rw [ih, lookup_pushEndpoint]
    by_cases hg : g = e.trophic_group
    · simp only [if_pos hg, Option.getD_some, keys_pushObs, List.exists_mem_cons_iff]
      by_cases hsp : e.species ∈ ((lookupA acc g).getD []).map Prod.fst
      · simp only [if_pos hsp]
        constructor
        · rintro (h | h)
          · exact Or.inl h
          · exact Or.inr (Or.inr h)
        · rintro (h | ⟨-, h⟩ | h)
          · exact Or.inl h
          · exact Or.inl (h ▸ hsp)
          · exact Or.inr h
      · simp only [if_neg hsp, List.mem_append, List.mem_singleton]
        constructor
        · rintro ((h | h) | h)
          · exact Or.inl h
          · exact Or.inr (Or.inl ⟨hg.symm, h.symm⟩)
          · exact Or.inr (Or.inr h)
        · rintro (h | ⟨-, h⟩ | h)
          · exact Or.inl (Or.inl h)
          · exact Or.inl (Or.inr h.symm)
          · exact Or.inr h
    · simp only [if_neg hg, List.exists_mem_cons_iff]
      have himp : ¬ (e.trophic_group = g ∧ e.species = s) := by
        rintro ⟨h, -⟩
        exact hg h.symm
      tauto

theorem bkeys_foldPush_nodup (es : List Endpoint) :
    ∀ acc, (∀ g : String, (((lookupA acc g).getD []).map Prod.fst).Nodup) →
      ∀ g : String, (((lookupA (es.foldl pushEndpoint acc) g).getD []).map Prod.fst).Nodup := by
  induction es with
  | nil => intro acc h g; simpa using h g
  | cons e rest ih =>
    intro acc h g
    simp only [List.foldl_cons]
    apply ih
    intro g'
    rw [lookup_pushEndpoint]
    by_cases hg : g' = e.trophic_group
    · simp only [if_pos hg, Option.getD_some, keys_pushObs]
      by_cases hsp : e.species ∈ ((lookupA acc g').getD []).map Prod.fst
      · simpa [hsp] using h g'
      · simp [hsp, List.nodup_append, h g']
    · simp only [if_neg hg]
      exact h g'

/-! ### Claim C5: input-order invariance of the category order -/

theorem xCats_eq_of_perms (cb₁ cb₂ : ColorBy) (d₁ d₂ : EC10eqDataDetailed)
    (h1 : List.Perm (d₁.trophic_groups.map (·.1)) (d₂.trophic_groups.map (·.1)))
    (h2 : ∀ g, List.Perm (speciesKeysOf d₁ g) (speciesKeysOf d₂ g)) :
    (createEC10eqPlotFromData (.detailed d₁) cb₁).layout.xTickVals
      = (createEC10eqPlotFromData (.detailed d₂) cb₂).layout.xTickVals := by
  rw [create_xTickVals_shape, create_xTickVals_shape]
  simp only [convertToDetailed]
  rw [sortStrings_eq_of_perm h1]
  apply flatMap_congr
  intro g _
  rw [sortStrings_eq_of_perm (h2 g)]

/-- Claim C5: the x-axis category order is invariant under any
permutation of the input order, for the flat wire format (endpoints
permuted) and for the nested wire format (trophic-group entries
permuted, species entries within each group permuted); the order is the
lexicographically sorted one in both cases. -/
theorem C5_order_invariance :
    (∀ (cb : ColorBy) (s₁ s₂ : EC10eqDataSimple),
        List.Perm s₁.endpoints s₂.endpoints →
        (createEC10eqPlotFromData (.simple s₁) cb).layout.xTickVals
          = (createEC10eqPlotFromData (.simple s₂) cb).layout.xTickVals)
    ∧ (∀ (cb : ColorBy) (d₁ d₂ : EC10eqDataDetailed),
        List.Perm (d₁.trophic_groups.map (·.1)) (d₂.trophic_groups.map (·.1)) →
        (∀ g, List.Perm (speciesKeysOf d₁ g) (speciesKeysOf d₂ g)) →
        (createEC10eqPlotFromData (.detailed d₁) cb).layout.xTickVals
          = (createEC10eqPlotFromData (.detailed d₂) cb).layout.xTickVals) := by
  constructor
  · intro cb s₁ s₂ hperm
    have hd : ∀ s : EC10eqDataSimple,
        (createEC10eqPlotFromData (.simple s) cb).layout.xTickVals
          = (createEC10eqPlotFromData
              (.detailed (convertToDetailed (.simple s))) cb).layout.xTickVals :=
      fun s => rfl
    rw [hd s₁, hd s₂]
    apply xCats_eq_of_perms
    · apply List.perm_ext_iff_of_nodup
        (keys_foldPush_nodup _ [] (by simp))
        (keys_foldPush_nodup _ [] (by simp)) |>.mpr
      intro g
      rw [keys_foldPush_mem, keys_foldPush_mem]
      simp only [List.map_nil, List.not_mem_nil, false_or]
      constructor
      · rintro ⟨e, he, hg⟩
        exact ⟨e, hperm.mem_iff.mp he, hg⟩
      · rintro ⟨e, he, hg⟩
        exact ⟨e, hperm.mem_iff.mpr he, hg⟩
    · intro g
      apply List.perm_ext_iff_of_nodup
        (bkeys_foldPush_nodup _ [] (fun g' => by simp [lookupA]) g)
        (bkeys_foldPush_nodup _ [] (fun g' => by simp [lookupA]) g) |>.mpr
      intro s
      show s ∈ ((lookupA (s₁.endpoints.foldl pushEndpoint []) g).getD []).map Prod.fst ↔ _
      rw [bkeys_foldPush_mem, bkeys_foldPush_mem]
      simp only [lookupA, Option.getD_none, List.map_nil, List.not_mem_nil, false_or]
      constructor
      · rintro ⟨e, he, hg⟩
        exact ⟨e, hperm.mem_iff.mp he, hg⟩
      · rintro ⟨e, he, hg⟩
        exact ⟨e, hperm.mem_iff.mpr he, hg⟩
  · intro cb d₁ d₂ h1 h2
    exact xCats_eq_of_perms cb cb d₁ d₂ h1 h2

/-- Witness for C5: two concrete permuted flat datasets produce the same
category list. -/
theorem C5_witness :
    List.Perm dsC5a.endpoints dsC5b.endpoints ∧
      (createEC10eqPlotFromData (.simple dsC5a) .trophic_group).layout.xTickVals
        = (createEC10eqPlotFromData (.simple dsC5b) .trophic_group).layout.xTickVals :=
  ⟨by decide, C5_order_invariance.1 .trophic_group dsC5a dsC5b (by decide)⟩

/-! ### Claim C6: series count, point counts, legend visibility -/

theorem forall2_flatMap {α β γ : Type} {R : β → γ → Prop} {l : List α}
    {f : α → List β} {g : α → List γ}
    (h : ∀ a ∈ l, List.Forall₂ R (f a) (g a)) :
    List.Forall₂ R (l.flatMap f) (l.flatMap g) := by
  induction l with
  | nil => constructor
  | cons x xs ih =>
    simp only [List.flatMap_cons]
    exact List.rel_append (h x (List.mem_cons_self ..))
      (ih fun a ha => h a (List.mem_cons_of_mem _ ha))

theorem forall2_map_map {α β γ : Type} {R : β → γ → Prop} {l : List α} {f : α → β}
    {g : α → γ} (h : ∀ a ∈ l, R (f a) (g a)) :
    List.Forall₂ R (l.map f) (l.map g) := by
  induction l with
  | nil => constructor
  | cons x xs ih =>
    exact List.Forall₂.cons (h x (List.mem_cons_self ..))
      (ih fun a ha => h a (List.mem_cons_of_mem _ ha))

/-- Claim C6: for a dataset with unique trophic-group and species keys
(as any JavaScript object has), the number of produced series equals the
number of (trophic group, species) pairs (the summed species counts),
and — positionally along the builder's pair order — each series' y-value
count equals its bucket's observation count, with legend visibility
exactly for the alphabetically first species within its group. -/
theorem C6_count_and_legend (d : EC10eqDataDetailed) (cb : ColorBy)
    (hG : (d.trophic_groups.map (·.1)).Nodup) :
    (createEC10eqPlotFromData (.detailed d) cb).data.length
        = (d.trophic_groups.map (fun p => p.2.length)).sum
    ∧ List.Forall₂ (fun (t : Trace) (p : String × String) =>
        t.y.length = (bucketOf d p.1 p.2).length ∧
        (t.showlegend = true ↔ ∀ s ∈ speciesKeysOf d p.1, strLeProp p.2 s))
      (createEC10eqPlotFromData (.detailed d) cb).data (seriesPairs d) := by
  constructor
  · rw [create_data_shape]
    simp only [convertToDetailed]
    rw [List.length_flatMap]
    have step1 : ((sortStrings (d.trophic_groups.map (·.1))).map
          (fun g => ((sortStrings (speciesKeysOf d g)).map
            (fun sp => mkTrace cb g (sortStrings (speciesKeysOf d g)) sp
              (bucketOf d g sp))).length))
        = ((sortStrings (d.trophic_groups.map (·.1))).map
            (fun g => (speciesKeysOf d g).length)) := by
      apply List.map_congr_left
      intro g _
      rw [List.length_map]
      exact (sortStrings_perm _).length_eq
    simp only [Function.comp_def]
    rw [step1]
    rw [((sortStrings_perm (d.trophic_groups.map (·.1))).map
      (fun g => (speciesKeysOf d g).length)).sum_eq]
    rw [List.map_map]
    apply congrArg
    apply List.map_congr_left
    intro p hp
    simp only [Function.comp_apply]
    rw [speciesKeysOf, lookupA_self_of_nodup hG hp]
    simp
  · rw [create_data_shape]
    simp only [convertToDetailed]
    rw [seriesPairs]
    apply forall2_flatMap
    intro g _
    apply forall2_map_map
    intro sp hsp
    constructor
    · simp [mkTrace]
    · simp only [mkTrace, decide_eq_true_eq]
      rw [head_sortStrings_iff hsp]
      constructor
      · intro h s hs
        exact h s (sortStrings_mem.mpr hs)
      · intro h s hs
        exact h s (sortStrings_mem.mp hs)

/-- Witness for C6 at a concrete dataset: 3 series for the 3 species
buckets present. -/
theorem C6_witness :
    (dsC6.trophic_groups.map (·.1)).Nodup ∧
      (createEC10eqPlotFromData (.detailed dsC6) .trophic_group).data.length
        = (dsC6.trophic_groups.map (fun p => p.2.length)).sum :=
  ⟨by decide, (C6_count_and_legend dsC6 .trophic_group (by decide)).1⟩

/-! ### Decade-log lemmas (claim C4) -/

theorem log10floorAux_spec :
    ∀ fuel n : Nat, 1 ≤ n → n ≤ fuel →
      10 ^ log10floorAux fuel n ≤ n ∧ n < 10 ^ (log10floorAux fuel n + 1) := by
  intro fuel
  induction fuel with
  | zero => intro n h1 h2; omega
  | succ fuel ih =>
    intro n h1 h2
    by_cases hn : n < 10
    · simp only [log10floorAux, if_pos hn]
      constructor
      · simpa using h1
      · simpa using hn
    · simp only [log10floorAux, if_neg hn]
      have h1' : 1 ≤ n / 10 := by omega
      have h2' : n / 10 ≤ fuel := by omega
      obtain ⟨ha, hb⟩ := ih (n / 10) h1' h2'
      set k := log10floorAux fuel (n / 10) with hk
      have e1 : 10 ^ (k + 1) = 10 ^ k * 10 := pow_succ 10 k
      have e2 : 10 ^ (k + 1 + 1) = 10 ^ (k + 1) * 10 := pow_succ 10 (k + 1)
      have f1 : 10 ^ k * 10 ≤ n / 10 * 10 := Nat.mul_le_mul_right 10 ha
      have f2 : n / 10 + 1 ≤ 10 ^ (k + 1) := hb
      have f3 : (n / 10 + 1) * 10 ≤ 10 ^ (k + 1) * 10 := Nat.mul_le_mul_right 10 f2
      have f4 : n / 10 * 10 ≤ n := Nat.div_mul_le_self n 10
      have f5 : (n / 10 + 1) * 10 = n / 10 * 10 + 10 := by ring
      have f6 : n < n / 10 * 10 + 10 := by omega
      omega

theorem log10floorN_spec (n : Nat) (h : 1 ≤ n) :
    10 ^ log10floorN n ≤ n ∧ n < 10 ^ (log10floorN n + 1) :=
  log10floorAux_spec n n h le_rfl

theorem clog10N_spec (n : Nat) (h1 : 1 ≤ n) :
    n ≤ 10 ^ clog10N n ∧ (2 ≤ n → 10 ^ (clog10N n - 1) < n) := by
  by_cases h : n ≤ 1
  · have hn1 : n = 1 := by omega
    subst hn1
    simp [clog10N]
  · simp only [clog10N, if_neg h]
    have h2 : 1 ≤ n - 1 := by omega
    obtain ⟨ha, hb⟩ := log10floorN_spec (n - 1) h2
    constructor
    · omega
    · intro _
      have : log10floorN (n - 1) + 1 - 1 = log10floorN (n - 1) := by omega
      rw [this]
      omega

theorem zpow10_natCast (k : Nat) : (10 : ℚ) ^ ((k : ℕ) : ℤ) = ((10 ^ k : ℕ) : ℚ) := by
  push_cast
  exact zpow_natCast 10 k

theorem Q_ble_iff {a b : Q} (ha : 0 < a.den) (hb : 0 < b.den) :
    a.ble b = true ↔ a.toRat ≤ b.toRat := by
  rw [Q.ble, decide_eq_true_eq, Q.toRat, Q.toRat,
    div_le_div_iff (by exact_mod_cast ha) (by exact_mod_cast hb)]
  constructor <;> intro h <;> exact_mod_cast h

theorem Q_toRat_pos {q : Q} (hd : 0 < q.den) : 0 < q.toRat ↔ 0 < q.num := by
  rw [Q.toRat, lt_div_iff (by exact_mod_cast hd : (0:ℚ) < (q.den : ℚ)), zero_mul]
  constructor <;> intro h <;> exact_mod_cast h

theorem qFloorNat_spec {q : Q} (hd : 0 < q.den) (hq : 0 ≤ q.num) :
    (qFloorNat q : ℚ) ≤ q.toRat ∧ q.toRat < qFloorNat q + 1 := by
  have hD : (0:ℚ) < (q.den : ℚ) := by exact_mod_cast hd
  have hnum : ((q.num.toNat : ℕ) : ℚ) = (q.num : ℚ) := by
    exact_mod_cast Int.toNat_of_nonneg hq
  constructor
  · rw [Q.toRat, ← hnum, qFloorNat, le_div_iff hD]
    exact_mod_cast Nat.div_mul_le_self q.num.toNat q.den
  · rw [Q.toRat, ← hnum, qFloorNat, div_lt_iff hD]
    have hdm := Nat.div_add_mod q.num.toNat q.den
    have hmod := Nat.mod_lt q.num.toNat hd
    have hexp : (q.num.toNat / q.den + 1) * q.den
        = q.den * (q.num.toNat / q.den) + q.den := by ring
    have hlt : q.num.toNat < (q.num.toNat / q.den + 1) * q.den := by omega
    exact_mod_cast hlt

theorem qCeilNat_spec {q : Q} (hd : 0 < q.den) (hq : 0 ≤ q.num) :
    q.toRat ≤ (qCeilNat q : ℚ) ∧ (qCeilNat q : ℚ) < q.toRat + 1 := by
  have hD : (0:ℚ) < (q.den : ℚ) := by exact_mod_cast hd
  have hnum : ((q.num.toNat : ℕ) : ℚ) = (q.num : ℚ) := by
    exact_mod_cast Int.toNat_of_nonneg hq
  have hdm := Nat.div_add_mod (q.num.toNat + q.den - 1) q.den
  have hmod := Nat.mod_lt (q.num.toNat + q.den - 1) hd
  have hcomm : (q.num.toNat + q.den - 1) / q.den * q.den
      = q.den * ((q.num.toNat + q.den - 1) / q.den) := by ring
  have hC1 : q.num.toNat ≤ (q.num.toNat + q.den - 1) / q.den * q.den := by omega
  have hC2 : (q.num.toNat + q.den - 1) / q.den * q.den < q.num.toNat + q.den := by omega
  constructor
  · rw [Q.toRat, ← hnum, qCeilNat, div_le_iff hD]
    exact_mod_cast hC1
  · rw [Q.toRat, ← hnum, qCeilNat]
    have hsum : ((q.num.toNat : ℚ) + q.den) / q.den = (q.num.toNat : ℚ) / q.den + 1 := by
      field_simp
    rw [← hsum, lt_div_iff hD]
    exact_mod_cast hC2

theorem qInvPos_toRat {q : Q} (hq : 0 ≤ q.num) : (qInvPos q).toRat = q.toRat⁻¹ := by
  have hnum : ((q.num.toNat : ℕ) : ℚ) = (q.num : ℚ) := by
    exact_mod_cast Int.toNat_of_nonneg hq
  rw [qInvPos, Q.toRat, Q.toRat, inv_div]
  show ((q.den : ℤ) : ℚ) / ((q.num.toNat : ℕ) : ℚ) = _
  rw [hnum]
  push_cast
  ring

theorem qpow10_toRat (z : Int) : (qpow10 z).toRat = (10 : ℚ) ^ z := by
  by_cases h : 0 ≤ z
  · rw [qpow10, if_pos h, Q.toRat]
    simp only [Nat.cast_one, div_one]
    push_cast
    rw [← zpow_natCast (10:ℚ) z.toNat, Int.toNat_of_nonneg h]
  · rw [qpow10, if_neg h, Q.toRat]
    have h1 : ((10 ^ (-z).toNat : ℕ) : ℚ) = (10:ℚ) ^ (((-z).toNat : ℕ) : ℤ) :=
      (zpow10_natCast _).symm
    have h2 : (((-z).toNat : ℕ) : ℤ) = -z := Int.toNat_of_nonneg (by omega)
    rw [Int.cast_one, one_div, h1, h2, ← zpow_neg, neg_neg]

theorem inv_le_comm_q {x y : ℚ} (hx : 0 < x) (hy : 0 < y) : x⁻¹ ≤ y ↔ y⁻¹ ≤ x := by
  rw [← one_div, ← one_div, div_le_iff₀ hx, div_le_iff₀ hy, mul_comm]

theorem le_inv_comm_q {x y : ℚ} (hx : 0 < x) (hy : 0 < y) : x ≤ y⁻¹ ↔ y ≤ x⁻¹ := by
  rw [← one_div, ← one_div, le_div_iff₀ hy, le_div_iff₀ hx, mul_comm]

theorem lt_inv_comm_q {x y : ℚ} (hx : 0 < x) (hy : 0 < y) : x < y⁻¹ ↔ y < x⁻¹ := by
  rw [← one_div, ← one_div, lt_div_iff₀ hy, lt_div_iff₀ hx, mul_comm]

theorem inv_lt_comm_q {x y : ℚ} (hx : 0 < x) (hy : 0 < y) : x⁻¹ < y ↔ y⁻¹ < x := by
  rw [← one_div, ← one_div, div_lt_iff₀ hx, div_lt_iff₀ hy, mul_comm]

theorem Q_one_toRat : (Q.mk 1 1).toRat = 1 := by norm_num [Q.toRat]

theorem qOneLe_iff {q : Q} (hd : 0 < q.den) : qOneLe q = true ↔ (1:ℚ) ≤ q.toRat := by
  rw [qOneLe, Q_ble_iff Nat.one_pos hd, Q_one_toRat]

theorem floorLog10Q_spec {q : Q} (hd : 0 < q.den) (hn : 0 < q.num) :
    (qpow10 (floorLog10Q q)).toRat ≤ q.toRat ∧
      q.toRat < (qpow10 (floorLog10Q q + 1)).toRat := by
  have hq0 : 0 < q.toRat := (Q_toRat_pos hd).mpr hn
  rw [qpow10_toRat, qpow10_toRat]
  by_cases h1 : qOneLe q
  case pos =>
    have hq1 : (1:ℚ) ≤ q.toRat := (qOneLe_iff hd).mp h1
    rw [floorLog10Q, if_pos h1]
    obtain ⟨hfl, hfu⟩ := qFloorNat_spec hd (le_of_lt hn)
    have hfl1 : 1 ≤ qFloorNat q := by
      by_contra hc
      push_neg at hc
      have hz : qFloorNat q = 0 := by omega
      rw [hz] at hfu
      norm_num at hfu
      exact absurd hq1 (not_le.mpr hfu)
    obtain ⟨hl, hu⟩ := log10floorN_spec (qFloorNat q) hfl1
    constructor
    · rw [zpow10_natCast]
      calc ((10 ^ log10floorN (qFloorNat q) : ℕ) : ℚ) ≤ (qFloorNat q : ℚ) := by
            exact_mod_cast hl
        _ ≤ q.toRat := hfl
    · have hcast : ((log10floorN (qFloorNat q) : ℕ) : ℤ) + 1
          = ((log10floorN (qFloorNat q) + 1 : ℕ) : ℤ) := by push_cast; ring
      rw [hcast, zpow10_natCast]
      calc q.toRat < (qFloorNat q : ℚ) + 1 := hfu
        _ ≤ ((10 ^ (log10floorN (qFloorNat q) + 1) : ℕ) : ℚ) := by exact_mod_cast hu
  case neg =>
    have hq1 : q.toRat < 1 := by
      by_contra hc
      push_neg at hc
      exact h1 ((qOneLe_iff hd).mpr hc)
    have hrd : 0 < (qInvPos q).den := by
      simp only [qInvPos]
      omega
    have hrn : 0 ≤ (qInvPos q).num := by
      simp only [qInvPos]
      positivity
    have hrv : (qInvPos q).toRat = q.toRat⁻¹ := qInvPos_toRat (le_of_lt hn)
    have hr1 : 1 < (qInvPos q).toRat := by
      rw [hrv]
      exact (lt_inv_comm_q hq0 one_pos).mp (by rwa [inv_one])
    obtain ⟨hcl, hcu⟩ := qCeilNat_spec hrd hrn
    have hc2 : 2 ≤ qCeilNat (qInvPos q) := by
      by_contra hc
      push_neg at hc
      have hle1 : ((qCeilNat (qInvPos q) : ℕ) : ℚ) ≤ 1 := by exact_mod_cast (by omega : qCeilNat (qInvPos q) ≤ 1)
      linarith [le_trans hcl hle1]
    obtain ⟨hcub, hclb⟩ := clog10N_spec (qCeilNat (qInvPos q)) (by omega)
    have hclb := hclb hc2
    have hc1 : 1 ≤ clog10N (qCeilNat (qInvPos q)) := by
      by_contra hc0
      push_neg at hc0
      have hz : clog10N (qCeilNat (qInvPos q)) = 0 := by omega
      rw [hz] at hcub
      simp at hcub
      omega
    rw [floorLog10Q, if_neg h1]
    constructor
    · rw [zpow_neg, zpow10_natCast]
      have hpow : (0:ℚ) < ((10 ^ clog10N (qCeilNat (qInvPos q)) : ℕ) : ℚ) := by positivity
      refine (inv_le_comm_q hq0 hpow).mp ?_
      calc q.toRat⁻¹ = (qInvPos q).toRat := hrv.symm
        _ ≤ ((qCeilNat (qInvPos q) : ℕ) : ℚ) := hcl
        _ ≤ ((10 ^ clog10N (qCeilNat (qInvPos q)) : ℕ) : ℚ) := by exact_mod_cast hcub
    · have hexp : -((clog10N (qCeilNat (qInvPos q)) : ℕ) : ℤ) + 1
          = -(((clog10N (qCeilNat (qInvPos q)) - 1 : ℕ) : ℕ) : ℤ) := by
        push_cast [Nat.cast_sub hc1]
        ring
      rw [hexp, zpow_neg, zpow10_natCast]
      have hpow : (0:ℚ) < ((10 ^ (clog10N (qCeilNat (qInvPos q)) - 1) : ℕ) : ℚ) := by
        positivity
      refine (lt_inv_comm_q hpow hq0).mp ?_
      have hnat2 : 10 ^ (clog10N (qCeilNat (qInvPos q)) - 1) ≤ qCeilNat (qInvPos q) - 1 := by
        omega
      have hq' : ((10 ^ (clog10N (qCeilNat (qInvPos q)) - 1) : ℕ) : ℚ)
          ≤ ((qCeilNat (qInvPos q) : ℕ) : ℚ) - 1 := by
        have hcast := (Nat.cast_le (α := ℚ)).mpr hnat2
        rwa [Nat.cast_sub (by omega), Nat.cast_one] at hcast
      calc ((10 ^ (clog10N (qCeilNat (qInvPos q)) - 1) : ℕ) : ℚ)
          ≤ ((qCeilNat (qInvPos q) : ℕ) : ℚ) - 1 := hq'
        _ < (qInvPos q).toRat := by linarith [hcu]
        _ = q.toRat⁻¹ := hrv

theorem ceilLog10Q_spec {q : Q} (hd : 0 < q.den) (hn : 0 < q.num) :
    q.toRat ≤ (qpow10 (ceilLog10Q q)).toRat ∧
      (qpow10 (ceilLog10Q q - 1)).toRat < q.toRat := by
  have hq0 : 0 < q.toRat := (Q_toRat_pos hd).mpr hn
  rw [qpow10_toRat, qpow10_toRat]
  by_cases h1 : qOneLe q
  case pos =>
    have hq1 : (1:ℚ) ≤ q.toRat := (qOneLe_iff hd).mp h1
    rw [ceilLog10Q, if_pos h1]
    obtain ⟨hcl, hcu⟩ := qCeilNat_spec hd (le_of_lt hn)
    have hc1 : 1 ≤ qCeilNat q := by
      by_contra hc
      push_neg at hc
      have hz : qCeilNat q = 0 := by omega
      rw [hz] at hcl
      norm_num at hcl
      linarith
    obtain ⟨hcub, hclb⟩ := clog10N_spec (qCeilNat q) hc1
    constructor
    · rw [zpow10_natCast]
      calc q.toRat ≤ ((qCeilNat q : ℕ) : ℚ) := hcl
        _ ≤ ((10 ^ clog10N (qCeilNat q) : ℕ) : ℚ) := by exact_mod_cast hcub
    · by_cases hce : qCeilNat q = 1
      · have hcz : clog10N (qCeilNat q) = 0 := by rw [hce]; rfl
        rw [hcz]
        norm_num
        linarith
      · have hce2 : 2 ≤ qCeilNat q := by omega
        have hclb := hclb hce2
        have hcp1 : 1 ≤ clog10N (qCeilNat q) := by
          by_contra hc0
          push_neg at hc0
          have hz : clog10N (qCeilNat q) = 0 := by omega
          rw [hz] at hcub
          simp at hcub
          omega
        have hexp : ((clog10N (qCeilNat q) : ℕ) : ℤ) - 1
            = (((clog10N (qCeilNat q) - 1 : ℕ) : ℕ) : ℤ) := by
          push_cast [Nat.cast_sub hcp1]
          ring
        rw [hexp, zpow10_natCast]
        have hnat2 : 10 ^ (clog10N (qCeilNat q) - 1) ≤ qCeilNat q - 1 := by omega
        have hq' : ((10 ^ (clog10N (qCeilNat q) - 1) : ℕ) : ℚ)
            ≤ ((qCeilNat q : ℕ) : ℚ) - 1 := by
          have hcast := (Nat.cast_le (α := ℚ)).mpr hnat2
          rwa [Nat.cast_sub (by omega), Nat.cast_one] at hcast
        calc ((10 ^ (clog10N (qCeilNat q) - 1) : ℕ) : ℚ)
            ≤ ((qCeilNat q : ℕ) : ℚ) - 1 := hq'
          _ < q.toRat := by linarith [hcu]
  case neg =>
    have hq1 : q.toRat < 1 := by
      by_contra hc
      push_neg at hc
      exact h1 ((qOneLe_iff hd).mpr hc)
    have hrd : 0 < (qInvPos q).den := by
      simp only [qInvPos]
      omega
    have hrn : 0 ≤ (qInvPos q).num := by
      simp only [qInvPos]
      positivity
    have hrv : (qInvPos q).toRat = q.toRat⁻¹ := qInvPos_toRat (le_of_lt hn)
    have hr1 : 1 < (qInvPos q).toRat := by
      rw [hrv]
      exact (lt_inv_comm_q hq0 one_pos).mp (by rwa [inv_one])
    obtain ⟨hfl, hfu⟩ := qFloorNat_spec hrd hrn
    have hf1 : 1 ≤ qFloorNat (qInvPos q) := by
      by_contra hc
      push_neg at hc
      have hz : qFloorNat (qInvPos q) = 0 := by omega
      rw [hz] at hfu
      norm_num at hfu
      linarith
    obtain ⟨hl, hu⟩ := log10floorN_spec (qFloorNat (qInvPos q)) hf1
    rw [ceilLog10Q, if_neg h1]
    constructor
    · rw [zpow_neg, zpow10_natCast]
      have hpow : (0:ℚ) < ((10 ^ log10floorN (qFloorNat (qInvPos q)) : ℕ) : ℚ) := by
        positivity
      refine (le_inv_comm_q hpow hq0).mp ?_
      calc ((10 ^ log10floorN (qFloorNat (qInvPos q)) : ℕ) : ℚ)
          ≤ ((qFloorNat (qInvPos q) : ℕ) : ℚ) := by exact_mod_cast hl
        _ ≤ (qInvPos q).toRat := hfl
        _ = q.toRat⁻¹ := hrv
    · have hexp : -((log10floorN (qFloorNat (qInvPos q)) : ℕ) : ℤ) - 1
          = -(((log10floorN (qFloorNat (qInvPos q)) + 1 : ℕ) : ℕ) : ℤ) := by
        push_cast
        ring
      rw [hexp, zpow_neg, zpow10_natCast]
      have hpow : (0:ℚ) < ((10 ^ (log10floorN (qFloorNat (qInvPos q)) + 1) : ℕ) : ℚ) := by
        positivity
      refine (inv_lt_comm_q hq0 hpow).mp ?_
      calc q.toRat⁻¹ = (qInvPos q).toRat := hrv.symm
        _ < ((qFloorNat (qInvPos q) : ℕ) : ℚ) + 1 := hfu
        _ ≤ ((10 ^ (log10floorN (qFloorNat (qInvPos q)) + 1) : ℕ) : ℚ) := by
            exact_mod_cast hu

/-! ### Claim C4: the log-axis tick values -/

theorem qmin2_cases (a b : Q) : qmin2 a b = a ∨ qmin2 a b = b := by
  rw [qmin2]
  split <;> simp

theorem qmax2_cases (a b : Q) : qmax2 a b = b ∨ qmax2 a b = a := by
  rw [qmax2]
  split <;> simp

theorem foldl_qmin2_mem : ∀ (vs : List Q) (acc : Q), vs.foldl qmin2 acc ∈ acc :: vs := by
  intro vs
  induction vs with
  | nil => intro acc; simp
  | cons x xs ih =>
    intro acc
    simp only [List.foldl_cons]
    rcases List.mem_cons.mp (ih (qmin2 acc x)) with h | h
    · rcases qmin2_cases acc x with e | e
      · rw [h, e]; exact List.mem_cons_self ..
      · rw [h, e]; exact List.mem_cons_of_mem _ (List.mem_cons_self ..)
    · exact List.mem_cons_of_mem _ (List.mem_cons_of_mem _ h)

theorem foldl_qmax2_mem : ∀ (vs : List Q) (acc : Q), vs.foldl qmax2 acc ∈ acc :: vs := by
  intro vs
  induction vs with
  | nil => intro acc; simp
  | cons x xs ih =>
    intro acc
    simp only [List.foldl_cons]
    rcases List.mem_cons.mp (ih (qmax2 acc x)) with h | h
    · rcases qmax2_cases acc x with e | e
      · rw [h, e]; exact List.mem_cons_of_mem _ (List.mem_cons_self ..)
      · rw [h, e]; exact List.mem_cons_self ..
    · exact List.mem_cons_of_mem _ (List.mem_cons_of_mem _ h)

theorem qMinL_mem {vals : List Q} (h : vals ≠ []) : qMinL vals ∈ vals := by
  cases vals with
  | nil => exact absurd rfl h
  | cons v vs => exact foldl_qmin2_mem vs v

theorem qMaxL_mem {vals : List Q} (h : vals ≠ []) : qMaxL vals ∈ vals := by
  cases vals with
  | nil => exact absurd rfl h
  | cons v vs => exact foldl_qmax2_mem vs v

theorem qmax2_pos {a b : Q} (had : 0 < a.den) (hbd : 0 < b.den) (hb : 0 < b.toRat) :
    0 < (qmax2 a b).toRat := by
  rw [qmax2]
  split
  case isTrue h => exact hb
  case isFalse h =>
    exact lt_trans hb (not_le.mp fun hc => h ((Q_ble_iff had hbd).mpr hc))

theorem rangeInt_mem (lo hi : Int) : ∀ z : Int, z ∈ rangeInt lo hi ↔ lo ≤ z ∧ z ≤ hi := by
  intro z
  simp only [rangeInt, List.mem_map, List.mem_range]
  constructor
  · rintro ⟨i, hilt, rfl⟩
    have h1 : (i : ℤ) < hi + 1 - lo := by rwa [Int.lt_toNat] at hilt
    have h2 : (0 : ℤ) ≤ (i : ℤ) := Int.natCast_nonneg i
    omega
  · rintro ⟨h1, h2⟩
    refine ⟨(z - lo).toNat, ?_, ?_⟩
    · omega
    · have h3 : ((z - lo).toNat : ℤ) = z - lo := Int.toNat_of_nonneg (by omega)
      omega

theorem Q_zero_toRat : (Q.mk 0 1).toRat = 0 := by norm_num [Q.toRat]

theorem create_yTickVals_shape (input : EC10eqData) (cb : ColorBy) :
    (createEC10eqPlotFromData input cb).layout.yTickVals
      = yTicksOf ((createEC10eqPlotFromData input cb).data.flatMap Trace.y) := rfl

theorem yTicksOf_spec (vals : List Q) (h0 : vals ≠ [])
    (hden : ∀ v ∈ vals, 0 < v.den) (hmax : (qMaxL vals).ble ⟨0, 1⟩ = false) :
    yTicksOf vals
        = (rangeInt (floorLog10Q (qmax2 (qMinL vals) epsQ))
            (ceilLog10Q (qMaxL vals))).map qpow10
    ∧ (qpow10 (floorLog10Q (qmax2 (qMinL vals) epsQ))).toRat
        ≤ (qmax2 (qMinL vals) epsQ).toRat
    ∧ (qmax2 (qMinL vals) epsQ).toRat
        < (qpow10 (floorLog10Q (qmax2 (qMinL vals) epsQ) + 1)).toRat
    ∧ (qMaxL vals).toRat ≤ (qpow10 (ceilLog10Q (qMaxL vals))).toRat
    ∧ (qpow10 (ceilLog10Q (qMaxL vals) - 1)).toRat < (qMaxL vals).toRat
    ∧ (∀ z : Int, z ∈ rangeInt (floorLog10Q (qmax2 (qMinL vals) epsQ))
          (ceilLog10Q (qMaxL vals)) ↔
        floorLog10Q (qmax2 (qMinL vals) epsQ) ≤ z ∧ z ≤ ceilLog10Q (qMaxL vals)) := by
  have hmaxd : 0 < (qMaxL vals).den := hden _ (qMaxL_mem h0)
  have hmax0 : 0 < (qMaxL vals).toRat := by
    by_contra hc
    push_neg at hc
    have hble : (qMaxL vals).ble ⟨0, 1⟩ = true :=
      (Q_ble_iff hmaxd Nat.one_pos).mpr (by rwa [Q_zero_toRat])
    rw [hble] at hmax
    exact Bool.noConfusion hmax
  have hmind : 0 < (qMinL vals).den := hden _ (qMinL_mem h0)
  have hepsd : 0 < epsQ.den := by norm_num [epsQ]
  have hmd : 0 < (qmax2 (qMinL vals) epsQ).den := by
    rcases qmax2_cases (qMinL vals) epsQ with e | e <;> rw [e] <;> assumption
  have heps0 : 0 < epsQ.toRat := (Q_toRat_pos hepsd).mpr (by norm_num [epsQ])
  have hm0 : 0 < (qmax2 (qMinL vals) epsQ).toRat := qmax2_pos hmind hepsd heps0
  have hmnum : 0 < (qmax2 (qMinL vals) epsQ).num := (Q_toRat_pos hmd).mp hm0
  have hmaxnum : 0 < (qMaxL vals).num := (Q_toRat_pos hmaxd).mp hmax0
  refine ⟨?_, (floorLog10Q_spec hmd hmnum).1, (floorLog10Q_spec hmd hmnum).2,
    (ceilLog10Q_spec hmaxd hmaxnum).1, (ceilLog10Q_spec hmaxd hmaxnum).2,
    rangeInt_mem _ _⟩
  cases vals with
  | nil => exact absurd rfl h0
  | cons v vs =>
    simp only [yTicksOf, hmax, Bool.false_eq_true, if_false]

/-- Claim C4: for a chart with at least one y-value (well-formed, with a
positive maximum as the code's nonpositive-guard requires), the y-axis
tick values are exactly the contiguous powers of ten from
`floor(log10(max(min, 1e-10)))` to `ceil(log10(max))` inclusive; the
extremes bracket the clamped minimum and the maximum, and the emitted
power range is exactly the closed integer interval. -/
theorem C4_ticks (input : EC10eqData) (cb : ColorBy) (vals : List Q) (m : Q) (lo hi : Int)
    (hvals : vals = (createEC10eqPlotFromData input cb).data.flatMap Trace.y)
    (h0 : vals ≠ []) (hden : ∀ v ∈ vals, 0 < v.den)
    (hmax : (qMaxL vals).ble ⟨0, 1⟩ = false)
    (hm : m = qmax2 (qMinL vals) epsQ)
    (hlo : lo = floorLog10Q m) (hhi : hi = ceilLog10Q (qMaxL vals)) :
    (createEC10eqPlotFromData input cb).layout.yTickVals = (rangeInt lo hi).map qpow10
    ∧ (qpow10 lo).toRat ≤ m.toRat
    ∧ m.toRat < (qpow10 (lo + 1)).toRat
    ∧ (qMaxL vals).toRat ≤ (qpow10 hi).toRat
    ∧ (qpow10 (hi - 1)).toRat < (qMaxL vals).toRat
    ∧ (∀ z : Int, z ∈ rangeInt lo hi ↔ lo ≤ z ∧ z ≤ hi) := by
  subst hm
  subst hlo
  subst hhi
  subst hvals
  have h := yTicksOf_spec _ h0 hden hmax
  exact ⟨by rw [create_yTickVals_shape]; exact h.1, h.2.1, h.2.2.1, h.2.2.2.1,
    h.2.2.2.2.1, h.2.2.2.2.2⟩

/-- Witness for C4 at the dataset with values {0.003, 250}: the ticks
are exactly 1e-3 … 1e3. -/
theorem C4_witness :
    ((createEC10eqPlotFromData (.detailed dsC4) .trophic_group).data.flatMap Trace.y ≠ [])
    ∧ (∀ v ∈ (createEC10eqPlotFromData (.detailed dsC4) .trophic_group).data.flatMap Trace.y,
        0 < v.den)
    ∧ ((qMaxL ((createEC10eqPlotFromData (.detailed dsC4)
          .trophic_group).data.flatMap Trace.y)).ble ⟨0, 1⟩ = false)
    ∧ (createEC10eqPlotFromData (.detailed dsC4) .trophic_group).layout.yTickVals
        = (rangeInt (-3) 3).map qpow10
    ∧ (createEC10eqPlotFromData (.detailed dsC4) .trophic_group).layout.yTickVals
        = [⟨1, 1000⟩, ⟨1, 100⟩, ⟨1, 10⟩, ⟨1, 1⟩, ⟨10, 1⟩, ⟨100, 1⟩, ⟨1000, 1⟩] :=
  ⟨by decide, by decide, by decide,
   (C4_ticks (.detailed dsC4) .trophic_group
      ((createEC10eqPlotFromData (.detailed dsC4) .trophic_group).data.flatMap Trace.y)
      (qmax2 (qMinL ((createEC10eqPlotFromData (.detailed dsC4)
        .trophic_group).data.flatMap Trace.y)) epsQ)
      (-3) 3 rfl (by decide) (by decide) (by decide) rfl (by decide) (by decide)).1,
   by decide⟩

/-! ### Layout-reconciler lemmas (claims C1 and C7) -/

theorem optGet_eq_lookup_spread (v : Option JVal) (k : String) :
    optGet v k = lookupA (spreadOpt v) k := by
  rcases v with _ | w
  · rfl
  · cases w <;> rfl

theorem setA_lookup_cases {l : JObj} {a k : String} {x v : JVal}
    (h : lookupA (setA l a x) k = some v) :
    k = a ∨ lookupA l k = some v := by
  by_cases hk : k = a
  · exact Or.inl hk
  · rw [setA_lookup_ne _ _ _ hk] at h
    exact Or.inr h

theorem keys_map_pair (g : String → JVal) (ks : List String) :
    (ks.map (fun k => (k, g k))).map Prod.fst = ks := by
  rw [List.map_map]
  simp [Function.comp_def]

theorem jspread_lookup_map_pair (g : String → JVal) :
    ∀ (ks : List String) (b : JObj) {k : String}, k ∈ ks →
      lookupA (jspread b (ks.map (fun k => (k, g k)))) k = some (g k) := by
  intro ks
  induction ks with
  | nil => intro b k hk; simp at hk
  | cons x xs ih =>
    intro b k hk
    show lookupA (jspread (setA b x (g x)) (xs.map (fun k => (k, g k)))) k = some (g k)
    by_cases hx : k ∈ xs
    · exact ih _ hx
    · have hkx : k = x := by
        rcases List.mem_cons.mp hk with h | h
        · exact h
        · exact absurd h hx
      subst hkx
      rw [jspread_lookup_notmem (by rw [keysOf, keys_map_pair]; exact hx), setA_lookup_self]

theorem lookup_secondaryAxes_notmem {layout : JObj} {k : String}
    (hk : isSecAxisKey k = false) : lookupA (secondaryAxesOf layout) k = none := by
  rw [lookupA_eq_none_iff]
  intro hmem
  rw [secondaryAxesOf, keys_map_pair] at hmem
  have hsec := (List.mem_filter.mp hmem).2
  rw [hk] at hsec
  exact Bool.noConfusion hsec

theorem jsCoalesce_some_ne_null {v : JVal} (h : v ≠ JVal.null) (d : JVal) :
    jsCoalesce (some v) d = v := by
  cases v
  case null => exact absurd rfl h
  all_goals rfl

theorem bc_lookup_margin (layout : JObj) :
    lookupA (bcEnhancedLayout layout) "margin"
      = some (.obj (jspread defaultMarginObj (spreadOpt (lookupA layout "margin")))) := by
  simp only [bcEnhancedLayout]
  rw [setA_lookup_ne _ _ _ (by decide : ("margin" : String) ≠ "legend"),
    jspread_lookup_none (lookup_secondaryAxes_notmem (by decide)),
    setA_lookup_ne _ _ _ (by decide : ("margin" : String) ≠ "yaxis"),
    setA_lookup_ne _ _ _ (by decide : ("margin" : String) ≠ "xaxis"),
    setA_lookup_ne _ _ _ (by decide : ("margin" : String) ≠ "font"),
    setA_lookup_self]

theorem bc_lookup_font (layout : JObj) :
    lookupA (bcEnhancedLayout layout) "font"
      = some (.obj (jspread [("size", .num ⟨12, 1⟩)] (spreadOpt (lookupA layout "font")))) := by
  simp only [bcEnhancedLayout]
  rw [setA_lookup_ne _ _ _ (by decide : ("font" : String) ≠ "legend"),
    jspread_lookup_none (lookup_secondaryAxes_notmem (by decide)),
    setA_lookup_ne _ _ _ (by decide : ("font" : String) ≠ "yaxis"),
    setA_lookup_ne _ _ _ (by decide : ("font" : String) ≠ "xaxis"),
    setA_lookup_self]

theorem bc_lookup_xaxis (layout : JObj) :
    lookupA (bcEnhancedLayout layout) "xaxis"
      = some (injectAutomargin (lookupA layout "xaxis")) := by
  simp only [bcEnhancedLayout]
  rw [setA_lookup_ne _ _ _ (by decide : ("xaxis" : String) ≠ "legend"),
    jspread_lookup_none (lookup_secondaryAxes_notmem (by decide)),
    setA_lookup_ne _ _ _ (by decide : ("xaxis" : String) ≠ "yaxis"),
    setA_lookup_self]

theorem bc_lookup_yaxis (layout : JObj) :
    lookupA (bcEnhancedLayout layout) "yaxis"
      = some (injectAutomargin (lookupA layout "yaxis")) := by
  simp only [bcEnhancedLayout]
  rw [setA_lookup_ne _ _ _ (by decide : ("yaxis" : String) ≠ "legend"),
    jspread_lookup_none (lookup_secondaryAxes_notmem (by decide)),
    setA_lookup_self]

theorem bc_lookup_autosize (layout : JObj) :
    lookupA (bcEnhancedLayout layout) "autosize"
      = some (jsCoalesce (lookupA layout "autosize") (.bool true)) := by
  simp only [bcEnhancedLayout]
  rw [setA_lookup_ne _ _ _ (by decide : ("autosize" : String) ≠ "legend"),
    jspread_lookup_none (lookup_secondaryAxes_notmem (by decide)),
    setA_lookup_ne _ _ _ (by decide : ("autosize" : String) ≠ "yaxis"),
    setA_lookup_ne _ _ _ (by decide : ("autosize" : String) ≠ "xaxis"),
    setA_lookup_ne _ _ _ (by decide : ("autosize" : String) ≠ "font"),
    setA_lookup_ne _ _ _ (by decide : ("autosize" : String) ≠ "margin"),
    setA_lookup_ne _ _ _ (by decide : ("autosize" : String) ≠ "showlegend"),
    setA_lookup_self]

theorem bc_lookup_showlegend (layout : JObj) :
    lookupA (bcEnhancedLayout layout) "showlegend"
      = some (.bool (!isBoolFalse (lookupA layout "showlegend"))) := by
  simp only [bcEnhancedLayout]
  rw [setA_lookup_ne _ _ _ (by decide : ("showlegend" : String) ≠ "legend"),
    jspread_lookup_none (lookup_secondaryAxes_notmem (by decide)),
    setA_lookup_ne _ _ _ (by decide : ("showlegend" : String) ≠ "yaxis"),
    setA_lookup_ne _ _ _ (by decide : ("showlegend" : String) ≠ "xaxis"),
    setA_lookup_ne _ _ _ (by decide : ("showlegend" : String) ≠ "font"),
    setA_lookup_ne _ _ _ (by decide : ("showlegend" : String) ≠ "margin"),
    setA_lookup_self]

theorem bc_lookup_legend (layout : JObj) :
    lookupA (bcEnhancedLayout layout) "legend"
      = some (match lookupA layout "legend" with
          | some lv => if jsTruthy lv then bcLegendMerge lv else bcDefaultLegend
          | none => bcDefaultLegend) := by
  simp only [bcEnhancedLayout]
  rw [setA_lookup_self]

theorem bc_lookup_secondary (layout : JObj) {k : String} (hsec : isSecAxisKey k = true)
    (hmem : k ∈ keysOf layout) :
    lookupA (bcEnhancedLayout layout) k = some (injectAutomargin (lookupA layout k)) := by
  simp only [bcEnhancedLayout]
  have hkl : k ≠ "legend" := by
    intro e
    rw [e] at hsec
    exact absurd hsec (by decide)
  rw [setA_lookup_ne _ _ _ hkl, secondaryAxesOf]
  exact jspread_lookup_map_pair _ _ _ (List.mem_filter.mpr ⟨hmem, hsec⟩)

/-- Claim C7: every source layout key matching the secondary-axis
pattern survives into the reconciled `BenchmarkComparison` layout as its
automargin-injected value: all original fields unchanged, no field other
than `automargin` added, and `automargin` equal to the source value when
the source specified one (non-null), `true` otherwise. -/
theorem C7_secondary_axes (layout : JObj) :
    ∀ k, isSecAxisKey k = true → ∀ v, lookupA layout k = some v →
      lookupA (bcEnhancedLayout layout) k = some (injectAutomargin (some v))
      ∧ (∀ k' v', k' ≠ "automargin" → optGet (some v) k' = some v' →
          optGet (some (injectAutomargin (some v))) k' = some v')
      ∧ (∀ k' v', optGet (some (injectAutomargin (some v))) k' = some v' →
          k' = "automargin" ∨ optGet (some v) k' = some v')
      ∧ optGet (some (injectAutomargin (some v))) "automargin"
          = some (jsCoalesce (optGet (some v) "automargin") (JVal.bool true)) := by
  intro k hsec v hv
  refine ⟨?_, ?_, ?_, ?_⟩
  · rw [bc_lookup_secondary layout hsec (lookupA_mem_keys hv), hv]
  · intro k' v' hne hv'
    show lookupA (setA (spreadOpt (some v)) "automargin" _) k' = some v'
    rw [setA_lookup_ne _ _ _ hne, ← optGet_eq_lookup_spread]
    exact hv'
  · intro k' v' hv'
    rcases setA_lookup_cases hv' with h | h
    · exact Or.inl h
    · rw [← optGet_eq_lookup_spread] at h
      exact Or.inr h
  · show lookupA (setA (spreadOpt (some v)) "automargin" _) "automargin" = _
    rw [setA_lookup_self]

/-- Witness for C7: the concrete layout `layC7w` carries `xaxis3`
through with automargin injected. -/
theorem C7_witness :
    isSecAxisKey "xaxis3" = true
    ∧ lookupA layC7w "xaxis3" = some (JVal.obj [("title", JVal.str "S3")])
    ∧ lookupA (bcEnhancedLayout layC7w) "xaxis3"
        = some (injectAutomargin (some (JVal.obj [("title", JVal.str "S3")]))) :=
  ⟨by decide, rfl,
    (C7_secondary_axes layC7w "xaxis3" (by decide)
      (JVal.obj [("title", JVal.str "S3")]) rfl).1⟩

/-! ### Claim C1: the layout reconcilers -/

/-- Claim C1, counterexample: the `PlotViewer` reconciler replaces the
margin region wholesale, so the source's `margin.l = 5` regresses to the
default 80 in the output — a field present in the source is not carried
through unchanged. -/
theorem C1_counterexample :
    fieldOf layC1cex "margin" "l" = some (JVal.num ⟨5, 1⟩)
    ∧ fieldOf (pvEnhancedLayout layC1cex) "margin" "l" = some (JVal.num ⟨80, 1⟩) :=
  ⟨rfl, rfl⟩

/-- Claim C1 (amended): the field-by-field, source-wins, defaults-fill-
gaps-only behaviour holds for the `BenchmarkComparison` reconciler (for
well-formed JavaScript objects: unique keys; null and non-boolean values
in the nullable-coalesced and boolean-tested positions excluded), for
every named region — margins, font, primary axes (with only automargin
injected), autosize, the show-legend flag, the legend including its
nested font block, and all discovered secondary axes. The `PlotViewer`
reconciler violates the claim (see the counterexample): it overwrites
margin, font, autosize, axis automargin and legend placement wholesale. -/
theorem C1_amended_bc (layout : JObj)
    (hm : (keysOf (spreadOpt (lookupA layout "margin"))).Nodup)
    (hf : (keysOf (spreadOpt (lookupA layout "font"))).Nodup)
    (hlf : (keysOf (spreadOpt (optGet (lookupA layout "legend") "font"))).Nodup) :
    (∀ k v, fieldOf layout "margin" k = some v →
        fieldOf (bcEnhancedLayout layout) "margin" k = some v)
    ∧ (∀ k v, fieldOf (bcEnhancedLayout layout) "margin" k = some v →
        fieldOf layout "margin" k = some v ∨
          (fieldOf layout "margin" k = none ∧ lookupA defaultMarginObj k = some v))
    ∧ (∀ k v, fieldOf layout "font" k = some v →
        fieldOf (bcEnhancedLayout layout) "font" k = some v)
    ∧ (∀ k v, fieldOf (bcEnhancedLayout layout) "font" k = some v →
        fieldOf layout "font" k = some v ∨
          (fieldOf layout "font" k = none ∧
            lookupA [("size", JVal.num ⟨12, 1⟩)] k = some v))
    ∧ (∀ k v, fieldOf layout "xaxis" k = some v → (k = "automargin" → v ≠ JVal.null) →
        fieldOf (bcEnhancedLayout layout) "xaxis" k = some v)
    ∧ (fieldOf (bcEnhancedLayout layout) "xaxis" "automargin"
        = some (jsCoalesce (fieldOf layout "xaxis" "automargin") (JVal.bool true)))
    ∧ (∀ k v, fieldOf layout "yaxis" k = some v → (k = "automargin" → v ≠ JVal.null) →
        fieldOf (bcEnhancedLayout layout) "yaxis" k = some v)
    ∧ (fieldOf (bcEnhancedLayout layout) "yaxis" "automargin"
        = some (jsCoalesce (fieldOf layout "yaxis" "automargin") (JVal.bool true)))
    ∧ (∀ v, lookupA layout "autosize" = some v → v ≠ JVal.null →
        lookupA (bcEnhancedLayout layout) "autosize" = some v)
    ∧ (∀ b, lookupA layout "showlegend" = some (JVal.bool b) →
        lookupA (bcEnhancedLayout layout) "showlegend" = some (JVal.bool b))
    ∧ (∀ k v, fieldOf layout "legend" k = some v → v ≠ JVal.null → k ≠ "font" →
        (k = "visible" → ∃ b, v = JVal.bool b) →
        fieldOf (bcEnhancedLayout layout) "legend" k = some v)
    ∧ (∀ k v, optGet (fieldOf layout "legend" "font") k = some v →
        optGet (fieldOf (bcEnhancedLayout layout) "legend" "font") k = some v)
    ∧ (∀ k, isSecAxisKey k = true → ∀ v, lookupA layout k = some v →
        lookupA (bcEnhancedLayout layout) k = some (injectAutomargin (some v))) := by
  refine ⟨?_, ?_, ?_, ?_, ?_, ?_, ?_, ?_, ?_, ?_, ?_, ?_, ?_⟩
  · -- margin: source fields preserved
    intro k v hv
    rw [fieldOf] at hv
    rw [fieldOf, bc_lookup_margin]
    show lookupA (jspread defaultMarginObj (spreadOpt (lookupA layout "margin"))) k = some v
    apply jspread_lookup_some hm
    rw [← optGet_eq_lookup_spread]
    exact hv
  · -- margin: defaults only fill gaps
    intro k v hv
    rw [fieldOf, bc_lookup_margin] at hv
    replace hv : lookupA (jspread defaultMarginObj
        (spreadOpt (lookupA layout "margin"))) k = some v := hv
    cases hsrc : lookupA (spreadOpt (lookupA layout "margin")) k with
    | some w =>
      rw [jspread_lookup_some hm hsrc] at hv
      left
      rw [fieldOf, optGet_eq_lookup_spread, hsrc]
      exact hv
    | none =>
      rw [jspread_lookup_none hsrc] at hv
      right
      exact ⟨by rw [fieldOf, optGet_eq_lookup_spread, hsrc], hv⟩
  · -- font: source fields preserved
    intro k v hv
    rw [fieldOf] at hv
    rw [fieldOf, bc_lookup_font]
    show lookupA (jspread [("size", JVal.num ⟨12, 1⟩)]
        (spreadOpt (lookupA layout "font"))) k = some v
    apply jspread_lookup_some hf
    rw [← optGet_eq_lookup_spread]
    exact hv
  · -- font: defaults only fill gaps
    intro k v hv
    rw [fieldOf, bc_lookup_font] at hv
    replace hv : lookupA (jspread [("size", JVal.num ⟨12, 1⟩)]
        (spreadOpt (lookupA layout "font"))) k = some v := hv
    cases hsrc : lookupA (spreadOpt (lookupA layout "font")) k with
    | some w =>
      rw [jspread_lookup_some hf hsrc] at hv
      left
      rw [fieldOf, optGet_eq_lookup_spread, hsrc]
      exact hv
    | none =>
      rw [jspread_lookup_none hsrc] at hv
      right
      exact ⟨by rw [fieldOf, optGet_eq_lookup_spread, hsrc], hv⟩
  · -- xaxis: source fields preserved (automargin when non-null)
    intro k v hv hnull
    rw [fieldOf] at hv
    rw [fieldOf, bc_lookup_xaxis]
    show lookupA (setA (spreadOpt (lookupA layout "xaxis")) "automargin"
        (jsCoalesce (optGet (lookupA layout "xaxis") "automargin") (JVal.bool true)))
      k = some v
    by_cases hk : k = "automargin"
    · subst hk
      rw [setA_lookup_self, hv, jsCoalesce_some_ne_null (hnull rfl)]
    · rw [setA_lookup_ne _ _ _ hk, ← optGet_eq_lookup_spread]
      exact hv
  · -- xaxis: automargin characterisation
    rw [fieldOf, bc_lookup_xaxis]
    show lookupA (setA (spreadOpt (lookupA layout "xaxis")) "automargin"
        (jsCoalesce (optGet (lookupA layout "xaxis") "automargin") (JVal.bool true)))
      "automargin" = _
    rw [setA_lookup_self, fieldOf]
  · -- yaxis: source fields preserved
    intro k v hv hnull
    rw [fieldOf] at hv
    rw [fieldOf, bc_lookup_yaxis]
    show lookupA (setA (spreadOpt (lookupA layout "yaxis")) "automargin"
        (jsCoalesce (optGet (lookupA layout "yaxis") "automargin") (JVal.bool true)))
      k = some v
    by_cases hk : k = "automargin"
    · subst hk
      rw [setA_lookup_self, hv, jsCoalesce_some_ne_null (hnull rfl)]
    · rw [setA_lookup_ne _ _ _ hk, ← optGet_eq_lookup_spread]
      exact hv
  · -- yaxis: automargin characterisation
    rw [fieldOf, bc_lookup_yaxis]
    show lookupA (setA (spreadOpt (lookupA layout "yaxis")) "automargin"
        (jsCoalesce (optGet (lookupA layout "yaxis") "automargin") (JVal.bool true)))
      "automargin" = _
    rw [setA_lookup_self, fieldOf]
  · -- autosize preserved when non-null
    intro v hv hnull
    rw [bc_lookup_autosize, hv, jsCoalesce_some_ne_null hnull]
  · -- showlegend preserved for boolean values
    intro b hv
    rw [bc_lookup_showlegend, hv]
    cases b <;> rfl
  · -- legend: source fields preserved
    intro k v hv hnull hkfont hvis
    rw [fieldOf] at hv
    cases hleg : lookupA layout "legend" with
    | none =>
      rw [hleg] at hv
      simp [optGet] at hv
    | some lv =>
      rw [hleg] at hv
      cases lv with
      | obj f =>
        rw [fieldOf, bc_lookup_legend, hleg]
        show optGet (some (if jsTruthy (JVal.obj f) then bcLegendMerge (JVal.obj f)
            else bcDefaultLegend)) k = some v
        rw [show jsTruthy (JVal.obj f) = true from rfl, if_pos rfl]
        show lookupA (setA _ "font" _) k = some v
        rw [setA_lookup_ne _ _ _ hkfont]
        by_cases h1 : k = "visible"
        · subst h1
          rw [setA_lookup_self]
          obtain ⟨b, rfl⟩ := hvis rfl
          rw [show optGet (some (JVal.obj f)) "visible" = some (JVal.bool b) from hv]
          cases b <;> rfl
        · rw [setA_lookup_ne _ _ _ h1]
          by_cases h2 : k = "yanchor"
          · subst h2
            rw [setA_lookup_self,
              show optGet (some (JVal.obj f)) "yanchor" = some v from hv,
              jsCoalesce_some_ne_null hnull]
          · rw [setA_lookup_ne _ _ _ h2]
            by_cases h3 : k = "xanchor"
            · subst h3
              rw [setA_lookup_self,
                show optGet (some (JVal.obj f)) "xanchor" = some v from hv,
                jsCoalesce_some_ne_null hnull]
            · rw [setA_lookup_ne _ _ _ h3]
              by_cases h4 : k = "y"
              · subst h4
                rw [setA_lookup_self,
                  show optGet (some (JVal.obj f)) "y" = some v from hv,
                  jsCoalesce_some_ne_null hnull]
              · rw [setA_lookup_ne _ _ _ h4]
                by_cases h5 : k = "x"
                · subst h5
                  rw [setA_lookup_self,
                    show optGet (some (JVal.obj f)) "x" = some v from hv,
                    jsCoalesce_some_ne_null hnull]
                · rw [setA_lookup_ne _ _ _ h5]
                  by_cases h6 : k = "orientation"
                  · subst h6
                    rw [setA_lookup_self,
                      show optGet (some (JVal.obj f)) "orientation" = some v from hv,
                      jsCoalesce_some_ne_null hnull]
                  · rw [setA_lookup_ne _ _ _ h6, ← optGet_eq_lookup_spread]
                    exact hv
      | null => simp [optGet] at hv
      | bool b => simp [optGet] at hv
      | num q => simp [optGet] at hv
      | str s => simp [optGet] at hv
      | arr l => simp [optGet] at hv
  · -- legend font: nested fields preserved
    intro k v hv
    rw [fieldOf] at hv
    cases hleg : lookupA layout "legend" with
    | none =>
      rw [hleg] at hv
      simp [optGet] at hv
    | some lv =>
      rw [hleg] at hv
      rw [hleg] at hlf
      cases lv with
      | obj f =>
        rw [fieldOf, bc_lookup_legend, hleg]
        show optGet (optGet (some (if jsTruthy (JVal.obj f) then bcLegendMerge (JVal.obj f)
            else bcDefaultLegend)) "font") k = some v
        rw [show jsTruthy (JVal.obj f) = true from rfl, if_pos rfl]
        show optGet (lookupA (setA _ "font" _) "font") k = some v
        rw [setA_lookup_self]
        show lookupA (jspread [("size", JVal.num ⟨11, 1⟩)]
            (spreadOpt (optGet (some (JVal.obj f)) "font"))) k = some v
        apply jspread_lookup_some hlf
        rw [← optGet_eq_lookup_spread]
        exact hv
      | null => simp [optGet] at hv
      | bool b => simp [optGet] at hv
      | num q => simp [optGet] at hv
      | str s => simp [optGet] at hv
      | arr l => simp [optGet] at hv
  · -- secondary axes carried through
    intro k hsec v hv
    rw [bc_lookup_secondary layout hsec (lookupA_mem_keys hv), hv]

/-- Witness for the amended C1 at a concrete layout: the source's
`margin.l = 7` survives the BenchmarkComparison merge. -/
theorem C1_amended_witness :
    (keysOf (spreadOpt (lookupA layC1w "margin"))).Nodup
    ∧ (keysOf (spreadOpt (lookupA layC1w "font"))).Nodup
    ∧ (keysOf (spreadOpt (optGet (lookupA layC1w "legend") "font"))).Nodup
    ∧ fieldOf (bcEnhancedLayout layC1w) "margin" "l" = some (JVal.num ⟨7, 1⟩) :=
  ⟨by decide, by decide, by decide,
    (C1_amended_bc layC1w (by decide) (by decide) (by decide)).1 "l"
      (JVal.num ⟨7, 1⟩) rfl⟩
